import Mathlib

/-!
# Verification of the PyPI packages MCP server core

A shallow embedding of the core logic of `src/mcp_server`:

* `package_manager.py` — version choice (`_choose_version`), package metadata
  resolution (`get_package_info`), compatibility checking
  (`check_compatibility`), and latest-version lookup (`get_latest_version`);
* `project_analyzer.py` — the manifest parsers and the mtime-keyed analysis
  cache (`analyze_project`).

The Python code leans on the external `packaging` library for versions,
specifiers and requirements.  That library is not part of this repository, so
the fragment of it that the code exercises is modelled here from the spec's
description ("standard version-precedence rules", PEP 440 style): dotted
numeric releases with an optional `a`/`b`/`rc` pre-release suffix, comparison
by zero-padded release segments with pre-releases ordering before finals, and
comma-separated specifier sets over the operators `==  !=  <=  >=  <  >`.
Strings are processed over their character lists so that all definitions
reduce in the kernel.
-/

namespace PyPiMcp

/-! ## Basic comparison machinery -/

instance {ε α : Type _} [DecidableEq ε] [DecidableEq α] : DecidableEq (Except ε α) :=
  fun x y =>
    match x, y with
    | .ok a, .ok b =>
      if h : a = b then .isTrue (h ▸ rfl)
      else .isFalse (fun hc => h (Except.ok.inj hc))
    | .error a, .error b =>
      if h : a = b then .isTrue (h ▸ rfl)
      else .isFalse (fun hc => h (Except.error.inj hc))
    | .ok _, .error _ => .isFalse (fun hc => Except.noConfusion hc)
    | .error _, .ok _ => .isFalse (fun hc => Except.noConfusion hc)

theorem then_lt_left (o : Ordering) : Ordering.lt.then o = .lt := rfl

theorem then_gt_left (o : Ordering) : Ordering.gt.then o = .gt := rfl

theorem then_eq_left (o : Ordering) : Ordering.eq.then o = o := rfl

/-- Three-way comparison on `Nat`. -/
def ncmp (a b : Nat) : Ordering :=
  if a < b then .lt else if b < a then .gt else .eq

theorem ncmp_refl (a : Nat) : ncmp a a = .eq := by
  unfold ncmp; simp

theorem ncmp_eq_iff {a b : Nat} : ncmp a b = .eq ↔ a = b := by
  unfold ncmp
  rcases Nat.lt_trichotomy a b with h | h | h
  · rw [if_pos h]; simp; omega
  · subst h; simp
  · rw [if_neg (Nat.lt_asymm h), if_pos h]; simp; omega

theorem ncmp_lt_iff {a b : Nat} : ncmp a b = .lt ↔ a < b := by
  unfold ncmp
  rcases Nat.lt_trichotomy a b with h | h | h
  · rw [if_pos h]; simp [h]
  · subst h; simp
  · rw [if_neg (Nat.lt_asymm h), if_pos h]; simp; omega

theorem ncmp_gt_iff {a b : Nat} : ncmp a b = .gt ↔ b < a := by
  unfold ncmp
  rcases Nat.lt_trichotomy a b with h | h | h
  · rw [if_pos h]; simp; omega
  · subst h; simp
  · rw [if_neg (Nat.lt_asymm h), if_pos h]; simp [h]

theorem ncmp_swap (a b : Nat) : ncmp b a = (ncmp a b).swap := by
  rcases Nat.lt_trichotomy a b with h | h | h
  · rw [ncmp_lt_iff.mpr h, ncmp_gt_iff.mpr h]; rfl
  · subst h; rw [ncmp_refl]; rfl
  · rw [ncmp_lt_iff.mpr h, ncmp_gt_iff.mpr h]; rfl

/-- Lexicographic comparison of `Nat` lists (no padding). -/
def lexCmp : List Nat → List Nat → Ordering
  | [], [] => .eq
  | [], _ :: _ => .lt
  | _ :: _, [] => .gt
  | a :: as, b :: bs => (ncmp a b).then (lexCmp as bs)

theorem lexCmp_refl (a : List Nat) : lexCmp a a = .eq := by
  induction a with
  | nil => rfl
  | cons x xs ih => simp [lexCmp, ncmp_refl, then_eq_left, ih]

theorem lexCmp_eq_iff : ∀ {a b : List Nat}, lexCmp a b = .eq ↔ a = b
  | [], [] => by simp [lexCmp]
  | [], _ :: _ => by simp [lexCmp]
  | _ :: _, [] => by simp [lexCmp]
  | a :: as, b :: bs => by
    simp only [lexCmp]
    cases hab : ncmp a b with
    | eq =>
      have hab' : a = b := ncmp_eq_iff.mp hab
      subst hab'
      rw [then_eq_left]
      simpa using lexCmp_eq_iff (a := as) (b := bs)
    | lt =>
      have hne : a ≠ b := fun h => by rw [h, ncmp_refl] at hab; cases hab
      rw [then_lt_left]; simp [hne]
    | gt =>
      have hne : a ≠ b := fun h => by rw [h, ncmp_refl] at hab; cases hab
      rw [then_gt_left]; simp [hne]

theorem lexCmp_swap : ∀ (a b : List Nat), lexCmp b a = (lexCmp a b).swap
  | [], [] => rfl
  | [], _ :: _ => rfl
  | _ :: _, [] => rfl
  | a :: as, b :: bs => by
    simp only [lexCmp, ncmp_swap a b]
    cases ncmp a b with
    | eq => exact lexCmp_swap as bs
    | lt => rfl
    | gt => rfl

theorem lexCmp_lt_trans :
    ∀ {a b c : List Nat}, lexCmp a b = .lt → lexCmp b c = .lt → lexCmp a c = .lt
  | [], [], _, h1, _ => by simp [lexCmp] at h1
  | [], _ :: _, [], _, h2 => by simp [lexCmp] at h2
  | [], _ :: _, _ :: _, _, _ => by simp [lexCmp]
  | _ :: _, [], _, h1, _ => by simp [lexCmp] at h1
  | _ :: _, _ :: _, [], _, h2 => by simp [lexCmp] at h2
  | a :: as, b :: bs, c :: cs, h1, h2 => by
    simp only [lexCmp] at h1 h2 ⊢
    cases hab : ncmp a b with
    | eq =>
      have hab' : a = b := ncmp_eq_iff.mp hab
      subst hab'
      rw [ncmp_refl, then_eq_left] at h1
      cases hac : ncmp a c with
      | eq =>
        rw [hac, then_eq_left] at h2
        rw [then_eq_left]
        exact lexCmp_lt_trans h1 h2
      | lt => rw [then_lt_left]
      | gt => rw [hac, then_gt_left] at h2; cases h2
    | lt =>
      cases hbc : ncmp b c with
      | eq =>
        have hbc' : b = c := ncmp_eq_iff.mp hbc
        subst hbc'
        rw [hab, then_lt_left]
      | lt =>
        have hac : a < c := Nat.lt_trans (ncmp_lt_iff.mp hab) (ncmp_lt_iff.mp hbc)
        rw [ncmp_lt_iff.mpr hac, then_lt_left]
      | gt => rw [hbc, then_gt_left] at h2; cases h2
    | gt => rw [hab, then_gt_left] at h1; cases h1

theorem lexCmp_gt_iff (a b : List Nat) : lexCmp a b = .gt ↔ lexCmp b a = .lt := by
  rw [lexCmp_swap a b]
  cases lexCmp a b <;> simp [Ordering.swap]

theorem lexCmp_ge_trans {a b c : List Nat}
    (h1 : lexCmp a b ≠ .lt) (h2 : lexCmp b c ≠ .lt) : lexCmp a c ≠ .lt := by
  intro hac
  cases hab : lexCmp a b with
  | lt => exact h1 hab
  | eq => exact h2 (lexCmp_eq_iff.mp hab ▸ hac)
  | gt =>
    cases hbc : lexCmp b c with
    | lt => exact h2 hbc
    | eq =>
      have hbc' : b = c := lexCmp_eq_iff.mp hbc
      rw [← hbc'] at hac
      rw [hac] at hab
      cases hab
    | gt =>
      have h1' : lexCmp b a = .lt := (lexCmp_gt_iff a b).mp hab
      have h2' : lexCmp c b = .lt := (lexCmp_gt_iff b c).mp hbc
      have hca : lexCmp c a = .lt := lexCmp_lt_trans h2' h1'
      have : lexCmp a c = .gt := (lexCmp_gt_iff a c).mpr hca
      rw [hac] at this
      cases this

theorem lexCmp_le_trans {a b c : List Nat}
    (h1 : lexCmp a b ≠ .gt) (h2 : lexCmp b c ≠ .gt) : lexCmp a c ≠ .gt := by
  intro hac
  have h1' : lexCmp b a ≠ .lt := fun h => h1 ((lexCmp_gt_iff a b).mpr h)
  have h2' : lexCmp c b ≠ .lt := fun h => h2 ((lexCmp_gt_iff b c).mpr h)
  exact (lexCmp_ge_trans h2' h1') ((lexCmp_gt_iff a c).mp hac)

theorem lexCmp_ge_total (a b : List Nat) : lexCmp a b ≠ .lt ∨ lexCmp b a ≠ .lt := by
  cases hab : lexCmp a b with
  | lt =>
    right
    rw [lexCmp_swap a b, hab]
    simp [Ordering.swap]
  | eq => left; simp [hab]
  | gt => left; simp [hab]

/-! ## Character and string utilities

All of these operate on `List Char` so that concrete computations reduce in
the kernel.  `strip` models Python's `str.strip`, `splitOnChar` models
`str.split(sep)`. -/

def isSpaceChar (c : Char) : Bool :=
  c = ' ' || c = '\t' || c = '\n' || c = '\r'

def stripChars (l : List Char) : List Char :=
  ((l.dropWhile isSpaceChar).reverse.dropWhile isSpaceChar).reverse

def strip (s : String) : String :=
  String.mk (stripChars s.data)

def splitOnCharAux (sep : Char) : List Char → List Char → List (List Char)
  | [], acc => [acc.reverse]
  | c :: cs, acc =>
    if c = sep then acc.reverse :: splitOnCharAux sep cs []
    else splitOnCharAux sep cs (c :: acc)

def splitOnChar (sep : Char) (l : List Char) : List (List Char) :=
  splitOnCharAux sep l []

def charsToNat? (l : List Char) : Option Nat :=
  if l = [] then none
  else if l.all Char.isDigit then
    some (l.foldl (fun n c => n * 10 + (c.toNat - 48)) 0)
  else none

def natToCharsAux : Nat → Nat → List Char
  | 0, _ => []
  | fuel + 1, n =>
    if n < 10 then [Char.ofNat (48 + n)]
    else natToCharsAux fuel (n / 10) ++ [Char.ofNat (48 + n % 10)]

def natToChars (n : Nat) : List Char :=
  natToCharsAux (n + 1) n

theorem natToChars_ne_nil (n : Nat) : natToChars n ≠ [] := by
  unfold natToChars natToCharsAux
  split <;> simp

/-- Comparison of strings by code points (Python's string ordering). -/
def scmp (a b : String) : Ordering :=
  lexCmp (a.data.map Char.toNat) (b.data.map Char.toNat)

/-! ## The version model

Modelled from the spec: "standard version-precedence rules (numeric release
segments, pre-release/post-release/dev-release ordering as commonly defined
for the ecosystem's version scheme)" — the external `packaging.version`
library is not part of this repository, so the subset the code exercises is
embedded: dotted numeric releases and an optional `a`/`b`/`rc` pre-release
suffix on the final segment.  Release segments compare zero-padded (modelled
by stripping trailing zeros and comparing lexicographically); a pre-release
orders before the corresponding final release. -/

structure PyVersion where
  release : List Nat
  pre : Option (Nat × Nat)
deriving DecidableEq

/-- Linearizing key: trailing-zero-stripped release, each segment shifted by
2, followed by `[1]` for a final release or `[0, phase, num]` for a
pre-release, so the whole order is one lexicographic comparison. -/
def vkey (v : PyVersion) : List Nat :=
  ((v.release.reverse.dropWhile (· == 0)).reverse).map (· + 2) ++
    match v.pre with
    | none => [1]
    | some (p, n) => [0, p, n]

/-- Version comparison (model of `packaging.version.Version` ordering). -/
def cmpVersion (v w : PyVersion) : Ordering :=
  lexCmp (vkey v) (vkey w)

theorem cmpVersion_refl (v : PyVersion) : cmpVersion v v = .eq :=
  lexCmp_refl _

theorem cmpVersion_swap (v w : PyVersion) : cmpVersion w v = (cmpVersion v w).swap :=
  lexCmp_swap _ _

theorem cmpVersion_ge_trans {u v w : PyVersion}
    (h1 : cmpVersion u v ≠ .lt) (h2 : cmpVersion v w ≠ .lt) : cmpVersion u w ≠ .lt :=
  lexCmp_ge_trans h1 h2

def isPrerelease (v : PyVersion) : Bool := v.pre.isSome

/-- Parse the phase marker of a pre-release suffix. -/
def parsePhase (l : List Char) : Option Nat :=
  if l = ['a'] then some 0
  else if l = ['b'] then some 1
  else if l = ['r', 'c'] then some 2
  else none

def phaseChars : Nat → List Char
  | 0 => ['a']
  | 1 => ['b']
  | _ => ['r', 'c']

/-- Parse the final dotted segment of a version: digits, optionally followed
by a phase marker and digits. -/
def parseFinalSegment (l : List Char) : Option (Nat × Option (Nat × Nat)) :=
  let ds := l.takeWhile Char.isDigit
  let rest := l.dropWhile Char.isDigit
  match charsToNat? ds with
  | none => none
  | some n =>
    if rest = [] then some (n, none)
    else
      let ph := rest.takeWhile (fun c => !c.isDigit)
      let pn := rest.dropWhile (fun c => !c.isDigit)
      match parsePhase ph with
      | none => none
      | some p =>
        if pn = [] then some (n, some (p, 0))
        else
          match charsToNat? pn with
          | none => none
          | some m => some (n, some (p, m))

/-- Model of `packaging.version.Version(s)`: `none` models `InvalidVersion`. -/
def parseVersion (s : String) : Option PyVersion :=
  match (splitOnChar '.' (stripChars s.data)).dropLast.mapM charsToNat?,
        parseFinalSegment ((splitOnChar '.' (stripChars s.data)).getLastD []) with
  | some initN, some (lastN, pre) => some ⟨initN ++ [lastN], pre⟩
  | _, _ => none

def joinDots : List Nat → List Char
  | [] => []
  | [n] => natToChars n
  | n :: ns => natToChars n ++ '.' :: joinDots ns

/-- Model of `str(Version)`: dotted release plus pre-release suffix. -/
def verChars (v : PyVersion) : List Char :=
  joinDots v.release ++
    match v.pre with
    | none => []
    | some (p, n) => phaseChars p ++ natToChars n

def verStr (v : PyVersion) : String :=
  String.mk (verChars v)

theorem parseVersion_release_ne_nil {s : String} {v : PyVersion}
    (h : parseVersion s = some v) : v.release ≠ [] := by
  unfold parseVersion at h
  split at h
  · simp only [Option.some.injEq] at h
    subst h
    simp
  · cases h

theorem joinDots_ne_nil : ∀ {l : List Nat}, l ≠ [] → joinDots l ≠ []
  | [], h => absurd rfl h
  | [n], _ => by simp [joinDots, natToChars_ne_nil n]
  | n :: _ :: _, _ => by simp [joinDots, natToChars_ne_nil n]

theorem verStr_ne_empty {v : PyVersion} (h : v.release ≠ []) : verStr v ≠ "" := by
  intro hcontra
  have hdata : verChars v = [] := congrArg String.data hcontra
  unfold verChars at hdata
  rcases List.append_eq_nil.mp hdata with ⟨h1, _⟩
  exact joinDots_ne_nil h h1

/-! ## Sorting

The Python code sorts with `list.sort(reverse=True)` (versions, descending)
and `sorted(...)` (strings, ascending).  Both are modelled with Mathlib's
`List.insertionSort` over the corresponding total preorders. -/

/-- `v` sorts no later than `w` in descending version order. -/
def vdescRel (v w : PyVersion) : Prop := cmpVersion v w ≠ .lt

instance : DecidableRel vdescRel := fun v w => by
  unfold vdescRel; infer_instance

instance : IsTotal PyVersion vdescRel where
  total v w := by
    unfold vdescRel cmpVersion
    exact lexCmp_ge_total _ _

instance : IsTrans PyVersion vdescRel where
  trans _ _ _ h1 h2 := cmpVersion_ge_trans h1 h2

/-- Model of Python `versions.sort(reverse=True)`. -/
def sortVersionsDesc (l : List PyVersion) : List PyVersion :=
  List.insertionSort vdescRel l

/-- `a` sorts no later than `b` in ascending string (code point) order. -/
def sleRel (a b : String) : Prop := scmp a b ≠ .gt

instance : DecidableRel sleRel := fun a b => by
  unfold sleRel; infer_instance

instance : IsTotal String sleRel where
  total a b := by
    unfold sleRel scmp
    rcases lexCmp_ge_total (b.data.map Char.toNat) (a.data.map Char.toNat) with h | h
    · left
      intro hc
      exact h ((lexCmp_gt_iff _ _).mp hc)
    · right
      intro hc
      exact h ((lexCmp_gt_iff _ _).mp hc)

instance : IsTrans String sleRel where
  trans _ _ _ h1 h2 := lexCmp_le_trans h1 h2

/-- Model of Python `sorted(list of strings)`. -/
def sortStringsAsc (l : List String) : List String :=
  List.insertionSort sleRel l

/-! ## Specifier sets

Model of `packaging.specifiers`: a `SpecifierSet` is parsed from a
comma-separated string; each specifier keeps the version text as written
(stripped) because `str(Specifier)` reproduces it, and `str(SpecifierSet)`
joins the specifier strings **sorted** with commas.  Only the comparison
operators the repository's data exercises are modelled; anything else is a
parse failure (`InvalidSpecifier`). -/

inductive SpecOp
  | eq | ne | le | ge | lt | gt
deriving DecidableEq

structure Specifier where
  op : SpecOp
  verText : String
  ver : PyVersion
deriving DecidableEq

def opChars : SpecOp → List Char
  | .eq => ['=', '=']
  | .ne => ['!', '=']
  | .le => ['<', '=']
  | .ge => ['>', '=']
  | .lt => ['<']
  | .gt => ['>']

def mkSpecifier (op : SpecOp) (rest : List Char) : Option Specifier :=
  let vt := stripChars rest
  (parseVersion (String.mk vt)).map fun ver => ⟨op, String.mk vt, ver⟩

/-- Parse one (already stripped) specifier clause. -/
def parseSpecifier : List Char → Option Specifier
  | '=' :: '=' :: rest => mkSpecifier .eq rest
  | '!' :: '=' :: rest => mkSpecifier .ne rest
  | '<' :: '=' :: rest => mkSpecifier .le rest
  | '>' :: '=' :: rest => mkSpecifier .ge rest
  | '<' :: rest => mkSpecifier .lt rest
  | '>' :: rest => mkSpecifier .gt rest
  | _ => none

/-- Model of `SpecifierSet(text)`: split on commas, drop blank pieces, parse
each clause; `none` models `InvalidSpecifier`. -/
def parseSpecifierSet (s : String) : Option (List Specifier) :=
  (((splitOnChar ',' s.data).map stripChars).filter (· ≠ [])).mapM parseSpecifier

/-- `str(Specifier)`: operator glued to the version text as written. -/
def specifierStr (s : Specifier) : String :=
  String.mk (opChars s.op ++ s.verText.data)

def joinCommas : List String → List Char
  | [] => []
  | [s] => s.data
  | s :: rest => s.data ++ ',' :: joinCommas rest

/-- `str(SpecifierSet)`: the specifier strings, sorted, joined with commas. -/
def specifierSetStr (specs : List Specifier) : String :=
  String.mk (joinCommas (sortStringsAsc (specs.map specifierStr)))

/-- One specifier clause, plain comparison semantics. -/
def specifierSat (s : Specifier) (v : PyVersion) : Bool :=
  match s.op with
  | .eq => cmpVersion v s.ver == .eq
  | .ne => cmpVersion v s.ver != .eq
  | .le => cmpVersion v s.ver != .gt
  | .ge => cmpVersion v s.ver != .lt
  | .lt => cmpVersion v s.ver == .lt
  | .gt => cmpVersion v s.ver == .gt

/-- Model of `version in specifier_set` with packaging's default pre-release
handling: a pre-release is contained only if some clause's version is itself
a pre-release. -/
def specSetContains (specs : List Specifier) (v : PyVersion) : Bool :=
  if isPrerelease v && !(specs.any fun s => isPrerelease s.ver) then false
  else specs.all fun s => specifierSat s v

/-! ## Requirements

Model of `packaging.requirements.Requirement`: `name[extra,...]specifiers`.
Environment markers and URL requirements are outside the modelled grammar
and count as parse failures. -/

structure PyReq where
  name : String
  extras : List String
  specifier : List Specifier
deriving DecidableEq

def isNameChar (c : Char) : Bool :=
  c.isAlphanum || c = '.' || c = '_' || c = '-'

/-- `sorted(list(req.extras))`: the extras set, sorted. -/
def sortedExtras (l : List String) : List String :=
  sortStringsAsc l.eraseDups

/-- Model of `Requirement(line)`: `none` models `InvalidRequirement`. -/
def parseRequirement (s : String) : Option PyReq :=
  let cs := stripChars s.data
  let nameCs := cs.takeWhile isNameChar
  let rest := cs.dropWhile isNameChar
  if nameCs = [] then none
  else
    match rest with
    | '[' :: r2 =>
      let inside := r2.takeWhile (· ≠ ']')
      let after := r2.dropWhile (· ≠ ']')
      match after with
      | ']' :: r3 =>
        let extraNames := ((splitOnChar ',' inside).map stripChars).filter (· ≠ [])
        if extraNames.all (fun e => e.all isNameChar) then
          (parseSpecifierSet (String.mk (stripChars r3))).map fun specs =>
            ⟨String.mk nameCs, extraNames.map String.mk, specs⟩
        else none
      | _ => none
    | _ =>
      (parseSpecifierSet (String.mk (stripChars rest))).map fun specs =>
        ⟨String.mk nameCs, [], specs⟩

/-! ## Data model (`models.py`, `errors.py`) -/

/-- `models.Dependency`. -/
structure Dependency where
  name : String
  version_spec : String := ""
  extras : List String := []
  source_file : String := ""
  is_dev_dependency : Bool := false
deriving DecidableEq

/-- `models.PackageInfo`.  `last_updated` is a timestamp modelled as an
already-parsed `Nat` (the code stores a timezone-aware datetime). -/
structure PackageInfo where
  name : String
  version : String := ""
  description : String := ""
  long_description : String := ""
  long_description_content_type : String := ""
  author : String := ""
  license : String := ""
  homepage : String := ""
  repository : String := ""
  keywords : List String := []
  dependencies : List Dependency := []
  python_requires : String := ""
  last_updated : Option Nat := none
deriving DecidableEq

/-- The exception taxonomy of `errors.py` plus `otherError` for exceptions
outside it (e.g. `packaging`'s `InvalidRequirement`/`InvalidSpecifier`). -/
inductive PyErr
  | networkError (msg : String)
  | fileSystemError (msg : String)
  | parsingError (msg : String)
  | otherError (msg : String)
deriving DecidableEq

/-! ## Registry data (PyPI JSON documents, as the code reads them) -/

/-- One release-file descriptor; the code only reads `f.get("yanked", False)`
in release lists. -/
structure ReleaseFile where
  yanked : Bool
deriving DecidableEq

/-- One entry of a `urls` list; the code reads
`upload_time_iso_8601`/`upload_time` and parses it — modelled as an
already-parsed timestamp, `none` for absent or unparseable. -/
structure FileUrl where
  uploadTime : Option Nat := none
deriving DecidableEq

/-- The `info` object of a PyPI JSON document (the fields the code reads).
`none` models an absent/null key. -/
structure PyPIInfo where
  name : Option String := none
  version : Option String := none
  summary : Option String := none
  description : Option String := none
  descriptionContentType : Option String := none
  author : Option String := none
  maintainer : Option String := none
  license : Option String := none
  homePage : Option String := none
  requiresPython : Option String := none
  keywords : Option String := none
  projectUrls : List (String × String) := []
  requiresDist : List String := []
deriving DecidableEq

/-- A PyPI JSON document: `info`, `releases` (version string → file list,
a Python dict modelled as an association list in insertion order), `urls`. -/
structure RegistryData where
  info : PyPIInfo := {}
  releases : List (String × List ReleaseFile) := []
  urls : List FileUrl := []
deriving DecidableEq

/-- Python's `x or y` on an optional string: `y` when absent or empty. -/
def orElseStr (a : Option String) (b : String) : String :=
  match a with
  | some s => if s = "" then b else s
  | none => b

/-- Dict lookup `m[k]` on an association list (first match). -/
def lookupStr (m : List (String × String)) (k : String) : Option String :=
  (m.find? (fun p => p.1 == k)).map Prod.snd

/-- `releases.get(vstr, [])`. -/
def lookupReleases (releases : List (String × List ReleaseFile)) (s : String) :
    List ReleaseFile :=
  ((releases.find? (fun p => p.1 == s)).map Prod.snd).getD []

/-- `[k.strip() for k in kw.split(",") if k.strip()]`. -/
def splitKeywords (s : String) : List String :=
  (((splitOnChar ',' s.data).map stripChars).filter (· ≠ [])).map String.mk

/-! ## `PackageManager._choose_version` -/

/-- The versions of the release map that parse (`_choose_version` lines
159–164). -/
def parsedVersions (releases : List (String × List ReleaseFile)) : List PyVersion :=
  releases.filterMap fun p => parseVersion p.1

/-- Whether the scan of `_choose_version` accepts `v`: the constraint check
`if spec and v not in spec: continue` (an empty specifier set is falsy and
filters nothing) followed by
`any(not f.get("yanked", False) for f in files)`. -/
def chooseAccept (releases : List (String × List ReleaseFile))
    (spec : Option (List Specifier)) (v : PyVersion) : Bool :=
  (match spec with
   | none => true
   | some s => s.isEmpty || specSetContains s v) &&
  (lookupReleases releases (verStr v)).any (fun f => !f.yanked)

/-- Model of `PackageManager._choose_version`. -/
def chooseVersion (releases : List (String × List ReleaseFile))
    (spec : Option (List Specifier)) : String :=
  match (sortVersionsDesc (parsedVersions releases)).find? (chooseAccept releases spec) with
  | some v => verStr v
  | none =>
    match sortVersionsDesc (parsedVersions releases) with
    | v :: _ => verStr v
    | [] => ""

/-! ## `PackageManager._parse_requires_dist` and local metadata -/

/-- Model of `PackageManager._parse_requires_dist` (also the identical loop
in `LocalMetadataExtractor.get_local_package_info`): invalid requirement
strings are skipped. -/
def parseRequiresDist (requires : List String) : List Dependency :=
  requires.filterMap fun r =>
    (parseRequirement r).map fun req =>
      { name := req.name
        version_spec := specifierSetStr req.specifier
        extras := sortedExtras req.extras }

/-- The fields of an installed package's `METADATA` that
`get_local_package_info` reads (`none` models an absent header; `payload`
models the message body). -/
structure LocalMeta where
  version : String
  name : Option String := none
  summary : Option String := none
  payload : String := ""
  descriptionContentType : Option String := none
  author : Option String := none
  authorEmail : Option String := none
  license : Option String := none
  homePage : Option String := none
  keywords : Option String := none
  requiresPython : Option String := none
  requiresDist : List String := []
deriving DecidableEq

/-- Model of `LocalMetadataExtractor.get_local_package_info` on an installed
package: note `repository := ""` and `last_updated := none` are literals in
the source. -/
def getLocalPackageInfo (packageName : String) (md : LocalMeta) : PackageInfo :=
  { name := md.name.getD packageName
    version := md.version
    description := md.summary.getD ""
    long_description := md.payload
    long_description_content_type := md.descriptionContentType.getD ""
    author :=
      let a := md.author.getD ""
      if a = "" then md.authorEmail.getD "" else a
    license := md.license.getD ""
    homepage := md.homePage.getD ""
    repository := ""
    keywords :=
      match md.keywords with
      | some k => if k ≠ "" then splitKeywords k else []
      | none => []
    dependencies := parseRequiresDist md.requiresDist
    python_requires := md.requiresPython.getD ""
    last_updated := none }

/-! ## `PackageManager.get_package_info` -/

/-- `max(parseable upload timestamps)` accumulation of
`get_package_info` lines 232–241. -/
def newestUpload (urls : List FileUrl) : Option Nat :=
  urls.foldl
    (fun acc u =>
      match u.uploadTime with
      | none => acc
      | some t =>
        match acc with
        | none => some t
        | some m => if m < t then some t else some m)
    none

/-- Repository link extraction: first present of
`Source`, `Repository`, `Code`, `Homepage` in `project_urls`. -/
def repoFromProjectUrls (purls : List (String × String)) : String :=
  match lookupStr purls "Source" with
  | some v => v
  | none =>
    match lookupStr purls "Repository" with
    | some v => v
    | none =>
      match lookupStr purls "Code" with
      | some v => v
      | none =>
        match lookupStr purls "Homepage" with
        | some v => v
        | none => ""

/-- The `PackageInfo` built from PyPI JSON data
(`get_package_info` lines 243–276). -/
def buildPyPIPackageInfo (packageName : String) (info : PyPIInfo)
    (urls : List FileUrl) (chosenVersion : String) : PackageInfo :=
  { name := orElseStr info.name packageName
    version := orElseStr info.version (if chosenVersion = "" then "" else chosenVersion)
    description := orElseStr info.summary ""
    long_description := orElseStr info.description ""
    long_description_content_type := orElseStr info.descriptionContentType ""
    author := orElseStr info.author (orElseStr info.maintainer "")
    license := orElseStr info.license ""
    homepage := (lookupStr info.projectUrls "Homepage").getD (orElseStr info.homePage "")
    repository := repoFromProjectUrls info.projectUrls
    keywords :=
      match info.keywords with
      | some k => if k ≠ "" then splitKeywords k else []
      | none => []
    dependencies := parseRequiresDist info.requiresDist
    python_requires := orElseStr info.requiresPython ""
    last_updated := newestUpload urls }

/-- The PyPI fallback path of `get_package_info` (lines 216–276).  The
returned flag records that the registry client was invoked. -/
def pypiFallback (packageName : String) (getProject : Option RegistryData)
    (getRelease : String → Option RegistryData) (versionSpec : Option String) :
    Except PyErr (PackageInfo × Bool) :=
  match getProject with
  | none => .error (.networkError "PyPI request failed")
  | some data =>
    let specE : Except PyErr (Option (List Specifier)) :=
      match versionSpec with
      | none => .ok none
      | some vs =>
        if vs = "" then .ok none
        else
          match parseSpecifierSet vs with
          | none => .error (.otherError "InvalidSpecifier")
          | some s => .ok (some s)
    match specE with
    | .error e => .error e
    | .ok spec =>
      let chosen := chooseVersion data.releases spec
      if chosen = "" then
        .ok (buildPyPIPackageInfo packageName data.info data.urls chosen, true)
      else
        match getRelease chosen with
        | none => .error (.networkError "PyPI request failed")
        | some rel => .ok (buildPyPIPackageInfo packageName rel.info rel.urls chosen, true)

/-- Model of `PackageManager.get_package_info`.  `local?` is the Local
Metadata Source: `some md` means the package is installed with metadata
`md`; `getProject`/`getRelease` are the Registry Client, `none` modelling a
failed request.  The second component of the result records whether the
registry client was invoked. -/
def getPackageInfo (packageName : String) (local? : Option LocalMeta)
    (getProject : Option RegistryData) (getRelease : String → Option RegistryData)
    (versionSpec : Option String) : Except PyErr (PackageInfo × Bool) :=
  match local? with
  | some md =>
    let info := getLocalPackageInfo packageName md
    match versionSpec with
    | none => .ok (info, false)
    | some vs =>
      if vs = "" then .ok (info, false)
      else
        match parseVersion info.version, parseSpecifierSet vs with
        | some v, some specs =>
          if specSetContains specs v then .ok (info, false)
          else pypiFallback packageName getProject getRelease versionSpec
        | _, _ => pypiFallback packageName getProject getRelease versionSpec
  | none => pypiFallback packageName getProject getRelease versionSpec

/-! ## `PackageManager.check_compatibility` -/

/-- One conflict record (`check_compatibility` lines 340–346). -/
structure Conflict where
  package : String
  reason : String
  constraints : List String
deriving DecidableEq

/-- `all_specs.setdefault(name, []).append(s)` on a dict modelled as an
association list in insertion order. -/
def addSpec (m : List (String × List (List Specifier))) (name : String)
    (s : List Specifier) : List (String × List (List Specifier)) :=
  if m.any (fun p => p.1 == name) then
    m.map fun p => if p.1 == name then (p.1, p.2 ++ [s]) else p
  else m ++ [(name, [s])]

def buildAllSpecsAux (newName : String) (newSpec : Option String) :
    List Dependency → List (String × List (List Specifier)) →
    Option (List (String × List (List Specifier)))
  | [], m =>
    (match newSpec with
     | none => some []
     | some vs => if vs = "" then some [] else parseSpecifierSet vs).map
      fun s => addSpec m newName s
  | d :: ds, m =>
    match (if d.version_spec = "" then some [] else parseSpecifierSet d.version_spec) with
    | none => none
    | some s => buildAllSpecsAux newName newSpec ds (addSpec m d.name s)

/-- The constraint-gathering loop of `check_compatibility` (lines 316–319);
`none` models an uncaught `InvalidSpecifier`. -/
def buildAllSpecs (existing : List Dependency) (newName : String)
    (newSpec : Option String) : Option (List (String × List (List Specifier))) :=
  buildAllSpecsAux newName newSpec existing []

/-- `ok(ver)`: `all(ver in s for s in specs if s)` — empty specifier sets
(unconstrained declarations) are falsy and skipped, i.e. always satisfied. -/
def okVer (specs : List (List Specifier)) (v : PyVersion) : Bool :=
  specs.all fun s => s.isEmpty || specSetContains s v

/-- Model of `PackageManager.check_compatibility`; `fetch` is
`client.get_project`, `none` modelling a failed fetch (skipped).  A `none`
result models the uncaught `InvalidSpecifier` from constraint gathering. -/
def checkCompatibility (existing : List Dependency) (newName : String)
    (newSpec : Option String) (fetch : String → Option RegistryData) :
    Option (List Conflict) :=
  (buildAllSpecs existing newName newSpec).map fun m =>
    m.filterMap fun p =>
      match fetch p.1 with
      | none => none
      | some data =>
        if !(sortVersionsDesc (parsedVersions data.releases)).isEmpty &&
            !((sortVersionsDesc (parsedVersions data.releases)).any (okVer p.2)) then
          some ⟨p.1, "No version satisfies all constraints", p.2.map specifierSetStr⟩
        else none

/-! ## `PackageManager.get_latest_version` -/

structure LatestVersionResult where
  name : String
  version : String
  isPrereleaseFlag : Bool
  source : String
deriving DecidableEq

/-- The filtering loop of `get_latest_version` (lines 359–370): skip
unparseable versions, skip pre-releases unless allowed, skip versions whose
non-empty file list is entirely yanked. -/
def latestFiltered (releases : List (String × List ReleaseFile))
    (allowPrerelease : Bool) : List PyVersion :=
  releases.filterMap fun p =>
    match parseVersion p.1 with
    | none => none
    | some ver =>
      if !allowPrerelease && isPrerelease ver then none
      else if !p.2.isEmpty && !(p.2.any fun f => !f.yanked) then none
      else some ver

/-- Model of `PackageManager.get_latest_version`. -/
def getLatestVersion (packageName : String) (getProject : Option RegistryData)
    (allowPrerelease : Bool) : Except PyErr LatestVersionResult :=
  match getProject with
  | none => .error (.networkError "PyPI request failed")
  | some data =>
    let sorted := sortVersionsDesc (latestFiltered data.releases allowPrerelease)
    let latestStr :=
      match sorted with
      | v :: _ => verStr v
      | [] => orElseStr data.info.version ""
    let isPre :=
      match parseVersion latestStr with
      | some v => isPrerelease v
      | none => false
    .ok ⟨orElseStr data.info.name packageName, latestStr, isPre, "pypi"⟩

/-! ## Manifest parsers (`project_analyzer.py`) -/

/-- Build a `Dependency` from a parsed requirement, as every manifest parser
does: `version_spec=str(req.specifier) if req.specifier else ""`,
`extras=sorted(list(req.extras)) if req.extras else []` (both conditionals
coincide with the unconditional renderings on empty input). -/
def reqToDependency (req : PyReq) (filePath : String) (isDev : Bool) : Dependency :=
  { name := req.name
    version_spec := specifierSetStr req.specifier
    extras := sortedExtras req.extras
    source_file := filePath
    is_dev_dependency := isDev }

def startsWithHash : List Char → Bool
  | '#' :: _ => true
  | _ => false

/-- The line loop of `DependencyParser.parse_requirements_txt`: blank and
`#` lines are skipped, a malformed line raises `ParsingError` aborting the
whole parse. -/
def parseReqLines (filePath : String) : List String → Except PyErr (List Dependency)
  | [] => .ok []
  | line :: rest =>
    if (stripChars line.data).isEmpty || startsWithHash (stripChars line.data) then
      parseReqLines filePath rest
    else
      match parseRequirement (String.mk (stripChars line.data)) with
      | none =>
        .error (.parsingError
          ("Invalid requirement line: " ++ String.mk (stripChars line.data)))
      | some req =>
        match parseReqLines filePath rest with
        | .error e => .error e
        | .ok deps => .ok (reqToDependency req filePath false :: deps)

/-- Model of `DependencyParser.parse_requirements_txt`; the file is its list
of lines, `none` modelling `FileNotFoundError` → `FileSystemError`. -/
def parseRequirementsTxt (filePath : String) (file : Option (List String)) :
    Except PyErr (List Dependency) :=
  match file with
  | none => .error (.fileSystemError ("File not found: " ++ filePath))
  | some lines => parseReqLines filePath lines

/-- The `[project]` table of a parsed `pyproject.toml` (the fields the code
reads). -/
structure PyprojectData where
  dependencies : List String := []
  optionalDependencies : List (String × List String) := []
deriving DecidableEq

def toLowerStr (s : String) : String :=
  String.mk (s.data.map Char.toLower)

/-- `group.lower() in {"dev", "test", "tests", "lint", "doc", "docs", "build"}`. -/
def isDevGroup (g : String) : Bool :=
  let l := toLowerStr g
  l == "dev" || l == "test" || l == "tests" || l == "lint" || l == "doc" ||
    l == "docs" || l == "build"

/-- Entry loop of `parse_pyproject_toml`: each `Requirement(entry)` is
**unguarded**, so an invalid entry raises `InvalidRequirement`
(`otherError`), not `ParsingError`. -/
def parseEntriesStrict (filePath : String) (isDev : Bool) :
    List String → Except PyErr (List Dependency)
  | [] => .ok []
  | e :: es =>
    match parseRequirement e with
    | none => .error (.otherError ("Invalid requirement: " ++ e))
    | some req =>
      match parseEntriesStrict filePath isDev es with
      | .error err => .error err
      | .ok deps => .ok (reqToDependency req filePath isDev :: deps)

def parseGroups (filePath : String) :
    List (String × List String) → Except PyErr (List Dependency)
  | [] => .ok []
  | (g, es) :: rest =>
    match parseEntriesStrict filePath (isDevGroup g) es with
    | .error err => .error err
    | .ok ds =>
      match parseGroups filePath rest with
      | .error err => .error err
      | .ok rs => .ok (ds ++ rs)

/-- Model of `DependencyParser.parse_pyproject_toml`; `none` content models
invalid TOML (`ParsingError`). -/
def parsePyprojectToml (filePath : String) (content : Option PyprojectData) :
    Except PyErr (List Dependency) :=
  match content with
  | none => .error (.parsingError "Failed to parse pyproject.toml")
  | some data =>
    match parseEntriesStrict filePath false data.dependencies with
    | .error err => .error err
    | .ok mainDeps =>
      match parseGroups filePath data.optionalDependencies with
      | .error err => .error err
      | .ok optDeps => .ok (mainDeps ++ optDeps)

/-- A Pipfile entry's value: a bare string or a table with a `version`
field (`""` when the field is missing). -/
inductive PipSpec
  | pstr (s : String)
  | ptable (version : String)
deriving DecidableEq

structure PipfileData where
  packages : List (String × PipSpec) := []
  devPackages : List (String × PipSpec) := []
deriving DecidableEq

def pipfileVersion : PipSpec → String
  | .pstr s => if strip s = "*" then "" else s
  | .ptable v => v

/-- Section loop of `parse_pipfile`: `Requirement(name + version)` with an
unparseable value falling back to `Requirement(name)`; the fallback itself
is unguarded. -/
def parsePipfileSection (filePath : String) (isDev : Bool) :
    List (String × PipSpec) → Except PyErr (List Dependency)
  | [] => .ok []
  | (name, spec) :: rest =>
    let req? :=
      match parseRequirement (name ++ pipfileVersion spec) with
      | some r => some r
      | none => parseRequirement name
    match req? with
    | none => .error (.otherError ("Invalid requirement: " ++ name))
    | some req =>
      match parsePipfileSection filePath isDev rest with
      | .error err => .error err
      | .ok deps => .ok (reqToDependency req filePath isDev :: deps)

/-- Model of `DependencyParser.parse_pipfile`; `none` content models invalid
TOML. -/
def parsePipfile (filePath : String) (content : Option PipfileData) :
    Except PyErr (List Dependency) :=
  match content with
  | none => .error (.parsingError "Failed to parse Pipfile")
  | some data =>
    match parsePipfileSection filePath false data.packages with
    | .error err => .error err
    | .ok p =>
      match parsePipfileSection filePath true data.devPackages with
      | .error err => .error err
      | .ok d => .ok (p ++ d)

/-- Model of `DependencyParser.parse_setup_py`; the content is the list of
literal `install_requires` strings the AST walk extracts (`none` models a
syntax error).  Unparseable entries are skipped. -/
def parseSetupPy (filePath : String) (content : Option (List String)) :
    Except PyErr (List Dependency) :=
  match content with
  | none => .error (.parsingError "Failed to parse setup.py")
  | some entries =>
    .ok (entries.filterMap fun e =>
      (parseRequirement e).map fun req => reqToDependency req filePath false)

/-! ## `ProjectAnalyzer.analyze_project` -/

/-- A manifest file's content, by format.  The constructor stands for the
`f.endswith(...)` dispatch over the four fixed manifest file names. -/
inductive FileContent
  | reqsTxt (lines : Option (List String))
  | pyproject (data : Option PyprojectData)
  | pipfile (data : Option PipfileData)
  | setupPy (entries : Option (List String))

/-- The per-file dispatch of the refresh loop (lines 181–189). -/
def parseDispatch : String × FileContent → Except PyErr (List Dependency)
  | (f, .reqsTxt lines) => parseRequirementsTxt f lines
  | (f, .pyproject data) => parsePyprojectToml f data
  | (f, .pipfile data) => parsePipfile f data
  | (f, .setupPy entries) => parseSetupPy f entries

/-- `_CacheEntry`. -/
structure CacheEntry where
  mtimes : List (String × Nat) := []
  dependencies : List Dependency := []
  files : List String := []
deriving DecidableEq

/-- `models.ProjectInfo`. -/
structure ProjectInfo where
  project_path : String
  dependency_files : List String := []
  dependencies : List Dependency := []
deriving DecidableEq

/-- `mtimes.get(f)` on an association-list dict. -/
def lookupMtime (m : List (String × Nat)) (f : String) : Option Nat :=
  (m.find? (fun p => p.1 == f)).map Prod.snd

def errText : PyErr → String
  | .networkError m => m
  | .fileSystemError m => m
  | .parsingError m => m
  | .otherError m => m

/-- `needs_refresh = (files != cached.files) or any(cached.mtimes.get(f) !=
mtimes.get(f) for f in set(files) | set(cached.mtimes.keys()))`.  The set
union is modelled by the concatenation (duplicates do not affect `any`). -/
def needsRefreshB (cachedE : CacheEntry) (files : List String)
    (mtimeOf : String → Nat) : Bool :=
  decide (files ≠ cachedE.files) ||
    ((files ++ cachedE.mtimes.map Prod.fst).any fun f =>
      lookupMtime cachedE.mtimes f !=
        lookupMtime (files.map fun g => (g, mtimeOf g)) f)

/-- The refresh loop of `analyze_project` (lines 179–191): per file, catch
`FileSystemError`/`ParsingError` and append a single sentinel dependency;
any other exception propagates. -/
def refreshDeps : List (String × FileContent) → Except PyErr (List Dependency)
  | [] => .ok []
  | fc :: rest =>
    let contribution : Except PyErr (List Dependency) :=
      match parseDispatch fc with
      | .ok ds => .ok ds
      | .error (.fileSystemError m) =>
        .ok [{ name := "__parse_error__", version_spec := m, source_file := fc.1 }]
      | .error (.parsingError m) =>
        .ok [{ name := "__parse_error__", version_spec := m, source_file := fc.1 }]
      | .error e => .error e
    match contribution with
    | .error e => .error e
    | .ok ds =>
      match refreshDeps rest with
      | .error e => .error e
      | .ok rs => .ok (ds ++ rs)

/-- Model of `ProjectAnalyzer.analyze_project` for one call.  `key` is the
canonical path (cache key), `found` the scan result with file contents,
`mtimeOf` the current on-disk mtimes, `cached` the cache slot for `key`.
Returns the `ProjectInfo`, the cache slot after the call, and whether the
refresh branch ran (the only place parsers are invoked). -/
def analyzeProject (key : String) (found : List (String × FileContent))
    (mtimeOf : String → Nat) (cached : Option CacheEntry) :
    Except PyErr (ProjectInfo × Option CacheEntry × Bool) :=
  if needsRefreshB (cached.getD {}) (found.map Prod.fst) mtimeOf then
    match refreshDeps found with
    | .error e => .error e
    | .ok deps =>
      .ok (⟨key, found.map Prod.fst, deps⟩,
        some ⟨(found.map Prod.fst).map fun f => (f, mtimeOf f), deps,
          found.map Prod.fst⟩, true)
  else
    .ok (⟨key, found.map Prod.fst,
      match cached with | some e => e.dependencies | none => []⟩, cached, false)

/-! ## Helper lemmas about sorting and scanning -/

theorem vdescRel_refl (v : PyVersion) : vdescRel v v := by
  unfold vdescRel
  rw [cmpVersion_refl]
  simp

theorem mem_sortVersionsDesc {l : List PyVersion} {v : PyVersion} :
    v ∈ sortVersionsDesc l ↔ v ∈ l :=
  (List.perm_insertionSort vdescRel l).mem_iff

theorem sortVersionsDesc_eq_nil {l : List PyVersion} :
    sortVersionsDesc l = [] ↔ l = [] := by
  constructor
  · intro h
    have hlen := (List.perm_insertionSort vdescRel l).length_eq
    rw [show List.insertionSort vdescRel l = sortVersionsDesc l from rfl, h] at hlen
    exact List.length_eq_zero.mp hlen.symm
  · intro h
    subst h
    rfl

theorem sorted_sortVersionsDesc (l : List PyVersion) :
    List.Pairwise vdescRel (sortVersionsDesc l) :=
  List.sorted_insertionSort vdescRel l

/-- A `find?` on a `Pairwise`-ordered list returns an element related to
every satisfying element (for a reflexive relation): the "first hit is
maximal" principle behind the descending scans. -/
theorem find?_pairwise_max {α : Type _} {R : α → α → Prop} {p : α → Bool}
    (hrefl : ∀ a, R a a) :
    ∀ {l : List α} {v : α}, List.Pairwise R l → l.find? p = some v →
      ∀ w ∈ l, p w = true → R v w
  | [], _, _, hf => by cases hf
  | a :: t, v, hp, hf => by
    rw [List.find?_cons] at hf
    split at hf
    · rename_i hpa
      injection hf with h
      subst h
      intro w hw _
      rcases List.mem_cons.mp hw with h | hw'
      · subst h
        exact hrefl _
      · exact List.rel_of_pairwise_cons hp hw'
    · rename_i hpa
      intro w hw hpw
      rcases List.mem_cons.mp hw with h | hw'
      · subst h
        rw [hpw] at hpa
        cases hpa
      · exact find?_pairwise_max hrefl hp.of_cons hf w hw' hpw

theorem sorted_head_max {l : List PyVersion} {v : PyVersion} {rest : List PyVersion}
    (h : sortVersionsDesc l = v :: rest) : ∀ w ∈ l, vdescRel v w := by
  intro w hw
  have hs := sorted_sortVersionsDesc l
  rw [h] at hs
  have hperm := List.perm_insertionSort vdescRel l
  rw [show List.insertionSort vdescRel l = sortVersionsDesc l from rfl, h] at hperm
  have hmem : w ∈ v :: rest := hperm.mem_iff.mpr hw
  rcases List.mem_cons.mp hmem with heq | hmem'
  · subst heq
    exact vdescRel_refl w
  · exact List.rel_of_pairwise_cons hs hmem'

theorem mem_parsedVersions {releases : List (String × List ReleaseFile)}
    {v : PyVersion} :
    v ∈ parsedVersions releases ↔ ∃ p ∈ releases, parseVersion p.1 = some v :=
  List.mem_filterMap

theorem verStr_ne_empty_of_mem_parsedVersions
    {releases : List (String × List ReleaseFile)} {v : PyVersion}
    (h : v ∈ parsedVersions releases) : verStr v ≠ "" := by
  rcases mem_parsedVersions.mp h with ⟨p, _, hp⟩
  exact verStr_ne_empty (parseVersion_release_ne_nil hp)

theorem sortedExtras_pairwise (l : List String) :
    List.Pairwise sleRel (sortedExtras l) :=
  List.sorted_insertionSort sleRel _

/-- When some parsed version is accepted, `_choose_version` returns an
accepted parsed version that is maximal among accepted ones. -/
theorem chooseVersion_scan_hit {releases : List (String × List ReleaseFile)}
    {spec : Option (List Specifier)} {v : PyVersion}
    (hv : v ∈ parsedVersions releases) (ha : chooseAccept releases spec v = true) :
    ∃ u ∈ parsedVersions releases, chooseAccept releases spec u = true ∧
      chooseVersion releases spec = verStr u ∧
      ∀ w ∈ parsedVersions releases, chooseAccept releases spec w = true →
        cmpVersion u w ≠ .lt := by
  cases hf : (sortVersionsDesc (parsedVersions releases)).find? (chooseAccept releases spec) with
  | none =>
    exact absurd ha (List.find?_eq_none.mp hf v (mem_sortVersionsDesc.mpr hv))
  | some u =>
    refine ⟨u, mem_sortVersionsDesc.mp (List.mem_of_find?_eq_some hf),
      List.find?_some hf, ?_, ?_⟩
    · unfold chooseVersion
      rw [hf]
    · intro w hw hpw
      exact find?_pairwise_max vdescRel_refl (sorted_sortVersionsDesc _) hf w
        (mem_sortVersionsDesc.mpr hw) hpw

/-- When no parsed version is accepted, `_choose_version` falls back to the
highest parsed version, or `""` when nothing parsed. -/
theorem chooseVersion_scan_miss {releases : List (String × List ReleaseFile)}
    {spec : Option (List Specifier)}
    (hall : ∀ v ∈ parsedVersions releases, chooseAccept releases spec v = false) :
    (parsedVersions releases = [] ∧ chooseVersion releases spec = "") ∨
    (∃ u ∈ parsedVersions releases, chooseVersion releases spec = verStr u ∧
      ∀ w ∈ parsedVersions releases, cmpVersion u w ≠ .lt) := by
  have hf : (sortVersionsDesc (parsedVersions releases)).find?
      (chooseAccept releases spec) = none := by
    rw [List.find?_eq_none]
    intro x hx
    rw [hall x (mem_sortVersionsDesc.mp hx)]
    simp
  cases hs : sortVersionsDesc (parsedVersions releases) with
  | nil =>
    left
    refine ⟨sortVersionsDesc_eq_nil.mp hs, ?_⟩
    unfold chooseVersion
    rw [hf, hs]
  | cons u rest =>
    right
    have hu : u ∈ sortVersionsDesc (parsedVersions releases) := by
      rw [hs]
      exact List.mem_cons_self u rest
    refine ⟨u, mem_sortVersionsDesc.mp hu, ?_, sorted_head_max hs⟩
    unfold chooseVersion
    rw [hf, hs]

/-- C1 (counterexample): in `{"2.0.0": [], "1.0.0": [one non-yanked file]}`
with no constraint, `"2.0.0"` parses, is constraint-free and has an empty
file list — so by the claim the scan should accept it first — yet
`_choose_version` returns `"1.0.0"`: the empty file list fails the
`any(not yanked)` test. -/
theorem C1_counterexample :
    parseVersion "2.0.0" = some ⟨[2, 0, 0], none⟩ ∧
    lookupReleases [("2.0.0", []), ("1.0.0", [⟨false⟩])] "2.0.0" = [] ∧
    chooseVersion [("2.0.0", []), ("1.0.0", [⟨false⟩])] none = "1.0.0" ∧
    ("1.0.0" : String) ≠ "2.0.0" := by
  refine ⟨by decide, by decide, by decide, by decide⟩

/-- C1 (amended): a version whose release-file list (looked up under its
normalized string) is empty is **never** accepted by the scan of
`_choose_version`; consequently, if such a version is returned, the scan
found no acceptable version at all (the result came from the fallback). -/
theorem C1_amended (releases : List (String × List ReleaseFile))
    (spec : Option (List Specifier)) (v : PyVersion)
    (_hv : v ∈ parsedVersions releases)
    (hempty : lookupReleases releases (verStr v) = []) :
    chooseAccept releases spec v = false ∧
    (chooseVersion releases spec = verStr v →
      ∀ u ∈ parsedVersions releases, chooseAccept releases spec u = false) := by
  have hacc : ∀ u : PyVersion, verStr u = verStr v →
      chooseAccept releases spec u = false := by
    intro u hu
    unfold chooseAccept
    rw [hu, hempty]
    simp
  refine ⟨hacc v rfl, ?_⟩
  intro heq u hu
  cases hf : (sortVersionsDesc (parsedVersions releases)).find?
      (chooseAccept releases spec) with
  | some w =>
    exfalso
    have hw : chooseVersion releases spec = verStr w := by
      unfold chooseVersion
      rw [hf]
    have hvw : verStr w = verStr v := by rw [← hw, heq]
    have hfw := List.find?_some hf
    rw [hacc w hvw] at hfw
    cases hfw
  | none =>
    have := List.find?_eq_none.mp hf u (mem_sortVersionsDesc.mpr hu)
    simpa using this

/-- C1 (witness): with `{"2.0.0": []}` the hypotheses of `C1_amended` hold
and `"2.0.0"` is only produced by the fallback. -/
theorem C1_witness :
    ((⟨[2, 0, 0], none⟩ : PyVersion) ∈ parsedVersions [("2.0.0", [])] ∧
      lookupReleases [("2.0.0", [])] (verStr ⟨[2, 0, 0], none⟩) = []) ∧
    (chooseAccept [("2.0.0", [])] none ⟨[2, 0, 0], none⟩ = false ∧
      (chooseVersion [("2.0.0", [])] none = verStr ⟨[2, 0, 0], none⟩ →
        ∀ u ∈ parsedVersions [("2.0.0", [])],
          chooseAccept [("2.0.0", [])] none u = false)) :=
  ⟨⟨by decide, by decide⟩, C1_amended _ none _ (by decide) (by decide)⟩

/-- C2: when the scan accepts nothing, `_choose_version` returns the highest
parsed version regardless of constraint and withdrawal, and the result is
empty exactly when no release-map key parses. -/
theorem C2_fallback (releases : List (String × List ReleaseFile))
    (spec : Option (List Specifier)) :
    ((∀ v ∈ parsedVersions releases, chooseAccept releases spec v = false) →
      parsedVersions releases ≠ [] →
      ∃ u ∈ parsedVersions releases, chooseVersion releases spec = verStr u ∧
        ∀ w ∈ parsedVersions releases, cmpVersion u w ≠ .lt) ∧
    (chooseVersion releases spec = "" ↔ parsedVersions releases = []) := by
  constructor
  · intro hall hne
    rcases chooseVersion_scan_miss hall with ⟨hnil, _⟩ | h
    · exact absurd hnil hne
    · exact h
  · constructor
    · intro hempty
      by_contra hne
      cases hf : (sortVersionsDesc (parsedVersions releases)).find?
          (chooseAccept releases spec) with
      | some u =>
        have hres : chooseVersion releases spec = verStr u := by
          unfold chooseVersion
          rw [hf]
        have hu : u ∈ parsedVersions releases :=
          mem_sortVersionsDesc.mp (List.mem_of_find?_eq_some hf)
        exact verStr_ne_empty_of_mem_parsedVersions hu (hres ▸ hempty)
      | none =>
        cases hs : sortVersionsDesc (parsedVersions releases) with
        | nil => exact hne (sortVersionsDesc_eq_nil.mp hs)
        | cons u rest =>
          have hres : chooseVersion releases spec = verStr u := by
            unfold chooseVersion
            rw [hf, hs]
          have hu : u ∈ parsedVersions releases := by
            apply mem_sortVersionsDesc.mp
            rw [hs]
            exact List.mem_cons_self u rest
          exact verStr_ne_empty_of_mem_parsedVersions hu (hres ▸ hempty)
    · intro h
      have hnil : sortVersionsDesc (parsedVersions releases) = [] := by
        rw [h]
        rfl
      unfold chooseVersion
      rw [hnil]
      rfl

/-- C2 (witness): every file of every version withdrawn — the fallback
returns the highest version, and emptiness coincides with nothing parsing. -/
theorem C2_witness :
    ((∀ v ∈ parsedVersions [("1.0.0", [⟨true⟩])],
        chooseAccept [("1.0.0", [⟨true⟩])] none v = false) ∧
      parsedVersions [("1.0.0", [⟨true⟩])] ≠ []) ∧
    (∃ u ∈ parsedVersions [("1.0.0", [⟨true⟩])],
      chooseVersion [("1.0.0", [⟨true⟩])] none = verStr u ∧
      ∀ w ∈ parsedVersions [("1.0.0", [⟨true⟩])], cmpVersion u w ≠ .lt) ∧
    (chooseVersion [("1.0.0", [⟨true⟩])] none = "" ↔
      parsedVersions [("1.0.0", [⟨true⟩])] = []) :=
  ⟨⟨by decide, by decide⟩,
    (C2_fallback _ none).1 (by decide) (by decide),
    (C2_fallback _ none).2⟩

/-- C7: the resolver scans parsed versions in descending version-precedence
order and returns the first accepted one (formalized: the result of a
successful scan is accepted and maximal among accepted versions), and on
`{"1.0.0": ok, "2.0.0": ok, "1.5.0": withdrawn}` it resolves to `"2.0.0"`
without a constraint and to `"1.0.0"` under `>=1.0,<2.0`. -/
theorem C7_ordering_and_examples :
    (∀ (releases : List (String × List ReleaseFile))
        (spec : Option (List Specifier)) (v : PyVersion),
        v ∈ parsedVersions releases → chooseAccept releases spec v = true →
        ∃ u ∈ parsedVersions releases, chooseAccept releases spec u = true ∧
          chooseVersion releases spec = verStr u ∧
          ∀ w ∈ parsedVersions releases, chooseAccept releases spec w = true →
            cmpVersion u w ≠ .lt) ∧
    chooseVersion
      [("1.0.0", [⟨false⟩]), ("2.0.0", [⟨false⟩]), ("1.5.0", [⟨true⟩])] none =
      "2.0.0" ∧
    chooseVersion
      [("1.0.0", [⟨false⟩]), ("2.0.0", [⟨false⟩]), ("1.5.0", [⟨true⟩])]
      (parseSpecifierSet ">=1.0,<2.0") = "1.0.0" := by
  refine ⟨?_, by decide, by decide⟩
  intro releases spec v hv ha
  exact chooseVersion_scan_hit hv ha

/-- C7 (witness): the general scan characterization applied at a concrete
release map. -/
theorem C7_witness :
    ((⟨[2, 0, 0], none⟩ : PyVersion) ∈ parsedVersions [("2.0.0", [⟨false⟩])] ∧
      chooseAccept [("2.0.0", [⟨false⟩])] none ⟨[2, 0, 0], none⟩ = true) ∧
    (∃ u ∈ parsedVersions [("2.0.0", [⟨false⟩])],
      chooseAccept [("2.0.0", [⟨false⟩])] none u = true ∧
      chooseVersion [("2.0.0", [⟨false⟩])] none = verStr u ∧
      ∀ w ∈ parsedVersions [("2.0.0", [⟨false⟩])],
        chooseAccept [("2.0.0", [⟨false⟩])] none w = true →
          cmpVersion u w ≠ .lt) :=
  ⟨⟨by decide, by decide⟩,
    C7_ordering_and_examples.1 [("2.0.0", [⟨false⟩])] none ⟨[2, 0, 0], none⟩
      (by decide) (by decide)⟩

/-- Membership in the filtering loop of `get_latest_version`: kept iff some
release entry parses to it, it is not a disallowed pre-release, and its file
list is empty or has a non-yanked file. -/
theorem mem_latestFiltered_iff {releases : List (String × List ReleaseFile)}
    {ap : Bool} {v : PyVersion} :
    v ∈ latestFiltered releases ap ↔
      ∃ p ∈ releases, parseVersion p.1 = some v ∧
        (ap = true ∨ isPrerelease v = false) ∧
        (p.2 = [] ∨ (p.2.any fun f => !f.yanked) = true) := by
  unfold latestFiltered
  rw [List.mem_filterMap]
  constructor
  · rintro ⟨p, hp, hf⟩
    refine ⟨p, hp, ?_⟩
    split at hf
    · cases hf
    · rename_i ver hpv
      split at hf
      · cases hf
      · rename_i hc1
        split at hf
        · cases hf
        · rename_i hc2
          injection hf with h
          subst h
          refine ⟨hpv, ?_, ?_⟩
          · cases hap : ap with
            | true => exact Or.inl rfl
            | false =>
              right
              cases hpre : isPrerelease ver with
              | false => rfl
              | true => exact absurd (by simp [hap, hpre]) hc1
          · cases hnil : p.2.isEmpty with
            | true => exact Or.inl (List.isEmpty_iff.mp hnil)
            | false =>
              right
              cases hany : (p.2.any fun f => !f.yanked) with
              | true => rfl
              | false => exact absurd (by simp [hnil, hany]) hc2
  · rintro ⟨p, hp, hpv, h1, h2⟩
    refine ⟨p, hp, ?_⟩
    rw [hpv]
    have hc1 : (!ap && isPrerelease v) = false := by
      rcases h1 with h | h <;> simp [h]
    have hc2 : (!p.2.isEmpty && !(p.2.any fun f => !f.yanked)) = false := by
      rcases h2 with h | h <;> simp [h]
    simp [hc1, hc2]

theorem verStr_ne_empty_of_mem_latestFiltered
    {releases : List (String × List ReleaseFile)} {ap : Bool} {v : PyVersion}
    (h : v ∈ latestFiltered releases ap) : verStr v ≠ "" := by
  rcases mem_latestFiltered_iff.mp h with ⟨p, _, hpv, _, _⟩
  exact verStr_ne_empty (parseVersion_release_ne_nil hpv)

/-- C10: `get_latest_version` keeps exactly the parseable versions that are
allowed pre-release-wise and not fully yanked (an empty file list counts as
available); the returned version string is the highest kept version, falling
back to the project-level metadata version, and is empty only when that
field is also empty. -/
theorem C10_latest_version (packageName : String) (data : RegistryData)
    (ap : Bool) (r : LatestVersionResult)
    (h : getLatestVersion packageName (some data) ap = .ok r) :
    (∀ v, v ∈ latestFiltered data.releases ap ↔
      ∃ p ∈ data.releases, parseVersion p.1 = some v ∧
        (ap = true ∨ isPrerelease v = false) ∧
        (p.2 = [] ∨ (p.2.any fun f => !f.yanked) = true)) ∧
    (latestFiltered data.releases ap ≠ [] →
      ∃ u ∈ latestFiltered data.releases ap, r.version = verStr u ∧
        ∀ w ∈ latestFiltered data.releases ap, cmpVersion u w ≠ .lt) ∧
    (latestFiltered data.releases ap = [] →
      r.version = orElseStr data.info.version "") ∧
    (r.version = "" ↔
      (latestFiltered data.releases ap = [] ∧
        orElseStr data.info.version "" = "")) := by
  unfold getLatestVersion at h
  rw [Except.ok.injEq] at h
  have hv : r.version =
      (match sortVersionsDesc (latestFiltered data.releases ap) with
        | v :: _ => verStr v
        | [] => orElseStr data.info.version "") := by
    rw [← h]
  have hmax : latestFiltered data.releases ap ≠ [] →
      ∃ u ∈ latestFiltered data.releases ap, r.version = verStr u ∧
        ∀ w ∈ latestFiltered data.releases ap, cmpVersion u w ≠ .lt := by
    intro hne
    cases hs : sortVersionsDesc (latestFiltered data.releases ap) with
    | nil => exact absurd (sortVersionsDesc_eq_nil.mp hs) hne
    | cons u rest =>
      have hu : u ∈ latestFiltered data.releases ap := by
        apply mem_sortVersionsDesc.mp
        rw [hs]
        exact List.mem_cons_self u rest
      refine ⟨u, hu, ?_, sorted_head_max hs⟩
      rw [hv, hs]
  have hfall : latestFiltered data.releases ap = [] →
      r.version = orElseStr data.info.version "" := by
    intro hnil
    have hs : sortVersionsDesc (latestFiltered data.releases ap) = [] := by
      rw [hnil]
      rfl
    rw [hv, hs]
  refine ⟨fun _ => mem_latestFiltered_iff, hmax, hfall, ?_, ?_⟩
  · intro hempty
    by_cases hne : latestFiltered data.releases ap = []
    · exact ⟨hne, (hfall hne) ▸ hempty⟩
    · rcases hmax hne with ⟨u, hu, hru, _⟩
      exact absurd (hru ▸ hempty) (verStr_ne_empty_of_mem_latestFiltered hu)
  · rintro ⟨hnil, hinfo⟩
    rw [hfall hnil, hinfo]

/-- C10 (witness): a concrete registry document with one non-yanked release. -/
theorem C10_witness :
    getLatestVersion "p"
      (some { info := { version := some "9.9" },
              releases := [("2.25.0", [⟨false⟩])] }) false =
      .ok ⟨"p", "2.25.0", false, "pypi"⟩ ∧
    ((∀ v, v ∈ latestFiltered [("2.25.0", [⟨false⟩])] false ↔
      ∃ p ∈ ([("2.25.0", [⟨false⟩])] : List (String × List ReleaseFile)),
        parseVersion p.1 = some v ∧
        (false = true ∨ isPrerelease v = false) ∧
        (p.2 = [] ∨ (p.2.any fun f => !f.yanked) = true)) ∧
    (latestFiltered [("2.25.0", [⟨false⟩])] false ≠ [] →
      ∃ u ∈ latestFiltered [("2.25.0", [⟨false⟩])] false,
        (⟨"p", "2.25.0", false, "pypi"⟩ : LatestVersionResult).version = verStr u ∧
        ∀ w ∈ latestFiltered [("2.25.0", [⟨false⟩])] false, cmpVersion u w ≠ .lt) ∧
    (latestFiltered [("2.25.0", [⟨false⟩])] false = [] →
      (⟨"p", "2.25.0", false, "pypi"⟩ : LatestVersionResult).version =
        orElseStr (some "9.9") "") ∧
    ((⟨"p", "2.25.0", false, "pypi"⟩ : LatestVersionResult).version = "" ↔
      (latestFiltered [("2.25.0", [⟨false⟩])] false = [] ∧
        orElseStr (some "9.9") "" = ""))) :=
  ⟨by decide,
    C10_latest_version "p"
      { info := { version := some "9.9" }, releases := [("2.25.0", [⟨false⟩])] }
      false ⟨"p", "2.25.0", false, "pypi"⟩ (by decide)⟩

/-- C6: when the local source reports the package installed and no version
constraint is given, `get_package_info` returns the locally derived
`PackageInfo` with the registry never invoked (flag `false`), the result is
the same for any two registry environments, and in it `repository` is empty
and `last_updated` absent. -/
theorem C6_local_first (packageName : String) (md : LocalMeta)
    (gp1 gp2 : Option RegistryData) (gr1 gr2 : String → Option RegistryData) :
    getPackageInfo packageName (some md) gp1 gr1 none =
      .ok (getLocalPackageInfo packageName md, false) ∧
    getPackageInfo packageName (some md) gp1 gr1 none =
      getPackageInfo packageName (some md) gp2 gr2 none ∧
    (getLocalPackageInfo packageName md).repository = "" ∧
    (getLocalPackageInfo packageName md).last_updated = none :=
  ⟨rfl, rfl, rfl, rfl⟩

/-! ## Compatibility-checker lemmas -/

theorem assoc_unique {α β : Type _} {m : List (α × β)}
    (h : (m.map Prod.fst).Nodup) {k : α} {a b : β}
    (ha : (k, a) ∈ m) (hb : (k, b) ∈ m) : a = b := by
  induction m with
  | nil => cases ha
  | cons x t ih =>
    rw [List.map_cons] at h
    have hnd := List.nodup_cons.mp h
    rcases List.mem_cons.mp ha with hha | hha <;> rcases List.mem_cons.mp hb with hhb | hhb
    · rw [← hha] at hhb
      exact (congrArg Prod.snd hhb).symm
    · exfalso
      apply hnd.1
      have hk : x.1 = k := by rw [← hha]
      rw [hk]
      exact List.mem_map.mpr ⟨(k, b), hhb, rfl⟩
    · exfalso
      apply hnd.1
      have hk : x.1 = k := by rw [← hhb]
      rw [hk]
      exact List.mem_map.mpr ⟨(k, a), hha, rfl⟩
    · exact ih hnd.2 hha hhb

theorem addSpec_keys_nodup {m : List (String × List (List Specifier))}
    {name : String} {s : List Specifier}
    (h : (m.map Prod.fst).Nodup) : ((addSpec m name s).map Prod.fst).Nodup := by
  unfold addSpec
  split
  · rename_i hany
    have hkeys :
        ((m.map fun p => if p.1 == name then (p.1, p.2 ++ [s]) else p).map Prod.fst) =
          m.map Prod.fst := by
      rw [List.map_map]
      apply List.map_congr_left
      intro p _
      by_cases hp : p.1 = name <;> simp [hp]
    rw [hkeys]
    exact h
  · rename_i hany
    rw [List.map_append]
    refine List.Nodup.append h (List.nodup_singleton _) ?_
    intro a ha hb
    rw [List.map_singleton, List.mem_singleton] at hb
    subst hb
    apply hany
    rw [List.any_eq_true]
    rcases List.mem_map.mp ha with ⟨p, hp, hfst⟩
    exact ⟨p, hp, by rw [hfst]; simp⟩

theorem buildAllSpecsAux_nodup {newName : String} {newSpec : Option String} :
    ∀ (ds : List Dependency) (m : List (String × List (List Specifier))),
      (m.map Prod.fst).Nodup →
      ∀ {m'}, buildAllSpecsAux newName newSpec ds m = some m' →
        (m'.map Prod.fst).Nodup
  | [], m, h, m', hm => by
    unfold buildAllSpecsAux at hm
    rcases Option.map_eq_some'.mp hm with ⟨s, _, hadd⟩
    rw [← hadd]
    exact addSpec_keys_nodup h
  | d :: ds, m, h, m', hm => by
    unfold buildAllSpecsAux at hm
    split at hm
    · cases hm
    · exact buildAllSpecsAux_nodup ds _ (addSpec_keys_nodup h) hm

theorem buildAllSpecs_nodup {existing : List Dependency} {newName : String}
    {newSpec : Option String} {m : List (String × List (List Specifier))}
    (h : buildAllSpecs existing newName newSpec = some m) :
    (m.map Prod.fst).Nodup :=
  buildAllSpecsAux_nodup existing [] List.nodup_nil h

/-- Analysis of the per-package body of `check_compatibility`'s loop. -/
theorem checkCompat_entry_eq_some {fetch : String → Option RegistryData}
    {p : String × List (List Specifier)} {c : Conflict} :
    (match fetch p.1 with
     | none => none
     | some data =>
       if !(sortVersionsDesc (parsedVersions data.releases)).isEmpty &&
           !((sortVersionsDesc (parsedVersions data.releases)).any (okVer p.2)) then
         some ⟨p.1, "No version satisfies all constraints", p.2.map specifierSetStr⟩
       else none) = some c ↔
    ∃ data, fetch p.1 = some data ∧ parsedVersions data.releases ≠ [] ∧
      (∀ v ∈ parsedVersions data.releases, okVer p.2 v = false) ∧
      c = ⟨p.1, "No version satisfies all constraints", p.2.map specifierSetStr⟩ := by
  split
  · rename_i hfetch
    constructor
    · intro hc
      cases hc
    · rintro ⟨data, hd, _⟩
      rw [hfetch] at hd
      cases hd
  · rename_i data hfetch
    split
    · rename_i hcond
      rw [Bool.and_eq_true] at hcond
      obtain ⟨hne, hnoany⟩ := hcond
      constructor
      · intro hc
        injection hc with hc
        refine ⟨data, hfetch, ?_, ?_, hc.symm⟩
        · intro hnil
          rw [show sortVersionsDesc (parsedVersions data.releases) = [] from by
            rw [hnil]; rfl] at hne
          cases hne
        · intro v hv
          have hanyf : ((sortVersionsDesc (parsedVersions data.releases)).any
              (okVer p.2)) = false := by
            cases hx : (sortVersionsDesc (parsedVersions data.releases)).any (okVer p.2)
            · rfl
            · rw [hx] at hnoany; cases hnoany
          have := List.any_eq_false.mp hanyf v (mem_sortVersionsDesc.mpr hv)
          simpa using this
      · rintro ⟨d2, hd, _, _, hc⟩
        rw [hfetch] at hd
        injection hd with hd
        subst hd
        rw [hc]
    · rename_i hcond
      constructor
      · intro hc
        cases hc
      · rintro ⟨d2, hd, hne, hall, _⟩
        rw [hfetch] at hd
        injection hd with hd
        subst hd
        exfalso
        apply hcond
        rw [Bool.and_eq_true]
        constructor
        · cases hx : (sortVersionsDesc (parsedVersions data.releases)).isEmpty with
          | false => rfl
          | true => exact absurd (sortVersionsDesc_eq_nil.mp (List.isEmpty_iff.mp hx)) hne
        · have hzero : ((sortVersionsDesc (parsedVersions data.releases)).any
              (okVer p.2)) = false := by
            rw [List.any_eq_false]
            intro v hv
            rw [hall v (mem_sortVersionsDesc.mp hv)]
            simp
          rw [hzero]
          rfl

/-- C5: with parseable constraints, a conflict is emitted for a grouped name
iff the fetch succeeds, at least one release key parses, and no parsed
version satisfies every collected constraint (empty specifier sets acting as
always-true); names with failed fetches or no parseable versions never
conflict, and every conflict's package is a grouped name. -/
theorem C5_conflict_characterization (existing : List Dependency)
    (newName : String) (newSpec : Option String)
    (fetch : String → Option RegistryData)
    (m : List (String × List (List Specifier))) (conflicts : List Conflict)
    (h1 : buildAllSpecs existing newName newSpec = some m)
    (h2 : checkCompatibility existing newName newSpec fetch = some conflicts) :
    (∀ c ∈ conflicts, c.package ∈ m.map Prod.fst) ∧
    (∀ name specs, (name, specs) ∈ m →
      ((∃ c ∈ conflicts, c.package = name) ↔
        ∃ data, fetch name = some data ∧ parsedVersions data.releases ≠ [] ∧
          ∀ v ∈ parsedVersions data.releases, okVer specs v = false)) := by
  have hnodup : (m.map Prod.fst).Nodup := buildAllSpecs_nodup h1
  unfold checkCompatibility at h2
  rw [h1, Option.map_some'] at h2
  injection h2 with h2
  subst h2
  constructor
  · intro c hc
    rcases List.mem_filterMap.mp hc with ⟨p, hp, hgp⟩
    rcases checkCompat_entry_eq_some.mp hgp with ⟨data, _, _, _, hceq⟩
    subst hceq
    exact List.mem_map.mpr ⟨p, hp, rfl⟩
  · intro name specs hmem
    constructor
    · rintro ⟨c, hc, hpkg⟩
      rcases List.mem_filterMap.mp hc with ⟨p, hp, hgp⟩
      rcases checkCompat_entry_eq_some.mp hgp with ⟨data, hfetch, hne, hall, hceq⟩
      obtain ⟨pn, pspecs⟩ := p
      have hpn : pn = name := by
        subst hceq
        exact hpkg
      subst hpn
      have hspecs : specs = pspecs := assoc_unique hnodup hmem hp
      subst hspecs
      exact ⟨data, hfetch, hne, hall⟩
    · rintro ⟨data, hfetch, hne, hall⟩
      refine ⟨⟨name, "No version satisfies all constraints",
        specs.map specifierSetStr⟩, ?_, rfl⟩
      exact List.mem_filterMap.mpr
        ⟨(name, specs), hmem, checkCompat_entry_eq_some.mpr
          ⟨data, hfetch, hne, hall, rfl⟩⟩

/-- C5 (witness): one unconstrained dependency, candidate `"b"` constrained
to `<1.0`, registry knowing only version `2.0` of `"b"` — a conflict is
emitted for `"b"` and the characterization matches. -/
theorem C5_witness :
    buildAllSpecs [{ name := "a" }] "b" (some "<1.0") =
      some [("a", [[]]), ("b", [[⟨.lt, "1.0", ⟨[1, 0], none⟩⟩]])] ∧
    checkCompatibility [{ name := "a" }] "b" (some "<1.0")
      (fun n => if n == "b" then some { releases := [("2.0", [])] } else none) =
      some [⟨"b", "No version satisfies all constraints", ["<1.0"]⟩] ∧
    ((∀ c ∈ [(⟨"b", "No version satisfies all constraints", ["<1.0"]⟩ : Conflict)],
        c.package ∈ [("a", [[]]),
          ("b", [[(⟨.lt, "1.0", ⟨[1, 0], none⟩⟩ : Specifier)]])].map Prod.fst) ∧
     (∀ name specs,
        (name, specs) ∈ [("a", [[]]),
          ("b", [[(⟨.lt, "1.0", ⟨[1, 0], none⟩⟩ : Specifier)]])] →
        ((∃ c ∈ [(⟨"b", "No version satisfies all constraints", ["<1.0"]⟩ : Conflict)],
            c.package = name) ↔
          ∃ data,
            (fun n => if n == "b" then
              some { releases := [("2.0", [])] } else none : String → Option RegistryData)
              name = some data ∧
            parsedVersions data.releases ≠ [] ∧
            ∀ v ∈ parsedVersions data.releases, okVer specs v = false))) :=
  ⟨by decide, by decide,
    C5_conflict_characterization [{ name := "a" }] "b" (some "<1.0")
      (fun n => if n == "b" then some { releases := [("2.0", [])] } else none)
      [("a", [[]]), ("b", [[⟨.lt, "1.0", ⟨[1, 0], none⟩⟩]])]
      [⟨"b", "No version satisfies all constraints", ["<1.0"]⟩]
      (by decide) (by decide)⟩

/-- C8 (counterexample): declaring `"a"` with the expression
`">=1.0, <0.5"` produces a conflict whose constraints list is
`["<0.5,>=1.0", ""]` — whitespace-stripped, comma-rejoined in **sorted**
order (plus the rendering of the unconstrained candidate) — not the
expression as given. -/
theorem C8_counterexample :
    checkCompatibility [{ name := "a", version_spec := ">=1.0, <0.5" }] "a" none
        (fun n => if n == "a" then some { releases := [("1.0", [])] } else none) =
      some [⟨"a", "No version satisfies all constraints", ["<0.5,>=1.0", ""]⟩] ∧
    ("<0.5,>=1.0" : String) ≠ ">=1.0, <0.5" := by
  refine ⟨by decide, by decide⟩

/-- C8 (amended): every conflict record carries one entry per constraint
collected for its package, each the canonical rendering
`str(SpecifierSet(...))` of the parsed constraint (specifier strings sorted
and comma-joined), not the input expression verbatim. -/
theorem C8_amended (existing : List Dependency) (newName : String)
    (newSpec : Option String) (fetch : String → Option RegistryData)
    (m : List (String × List (List Specifier))) (conflicts : List Conflict)
    (h1 : buildAllSpecs existing newName newSpec = some m)
    (h2 : checkCompatibility existing newName newSpec fetch = some conflicts) :
    ∀ c ∈ conflicts, ∃ specs, (c.package, specs) ∈ m ∧
      c.constraints = specs.map specifierSetStr ∧
      c.constraints.length = specs.length := by
  unfold checkCompatibility at h2
  rw [h1, Option.map_some'] at h2
  injection h2 with h2
  subst h2
  intro c hc
  rcases List.mem_filterMap.mp hc with ⟨p, hp, hgp⟩
  rcases checkCompat_entry_eq_some.mp hgp with ⟨data, _, _, _, hceq⟩
  subst hceq
  exact ⟨p.2, hp, rfl, by simp⟩

/-- C8 (witness): the amended statement applied at the counterexample's
input. -/
theorem C8_witness :
    (buildAllSpecs [{ name := "a", version_spec := ">=1.0, <0.5" }] "a" none =
      some [("a", [[⟨.ge, "1.0", ⟨[1, 0], none⟩⟩, ⟨.lt, "0.5", ⟨[0, 5], none⟩⟩], []])] ∧
     checkCompatibility [{ name := "a", version_spec := ">=1.0, <0.5" }] "a" none
        (fun n => if n == "a" then some { releases := [("1.0", [])] } else none) =
      some [⟨"a", "No version satisfies all constraints", ["<0.5,>=1.0", ""]⟩]) ∧
    (∀ c ∈ [(⟨"a", "No version satisfies all constraints",
        ["<0.5,>=1.0", ""]⟩ : Conflict)],
      ∃ specs,
        (c.package, specs) ∈
          [("a", [[(⟨.ge, "1.0", ⟨[1, 0], none⟩⟩ : Specifier),
                   ⟨.lt, "0.5", ⟨[0, 5], none⟩⟩], []])] ∧
        c.constraints = specs.map specifierSetStr ∧
        c.constraints.length = specs.length) :=
  ⟨⟨by decide, by decide⟩,
    C8_amended [{ name := "a", version_spec := ">=1.0, <0.5" }] "a" none
      (fun n => if n == "a" then some { releases := [("1.0", [])] } else none)
      [("a", [[⟨.ge, "1.0", ⟨[1, 0], none⟩⟩, ⟨.lt, "0.5", ⟨[0, 5], none⟩⟩], []])]
      [⟨"a", "No version satisfies all constraints", ["<0.5,>=1.0", ""]⟩]
      (by decide) (by decide)⟩

/-! ## Plain-list parser lemmas (C9) -/

/-- A line that `parse_requirements_txt` does not skip: non-blank after
stripping and not starting with `#`. -/
def isEffectiveLine (line : String) : Bool :=
  !((stripChars line.data).isEmpty || startsWithHash (stripChars line.data))

/-- The requirement parsed from a line, as the line loop parses it. -/
def effReq (line : String) : Option PyReq :=
  parseRequirement (String.mk (stripChars line.data))

/-- The dependency list a fully-well-formed plain-list file yields: one
production record per effective line, in file order. -/
def expectedReqDeps (filePath : String) (lines : List String) : List Dependency :=
  lines.filterMap fun line =>
    if isEffectiveLine line then
      (effReq line).map fun req => reqToDependency req filePath false
    else none

theorem parseReqLines_cons (filePath line : String) (rest : List String) :
    parseReqLines filePath (line :: rest) =
      if (stripChars line.data).isEmpty || startsWithHash (stripChars line.data) then
        parseReqLines filePath rest
      else
        match parseRequirement (String.mk (stripChars line.data)) with
        | none =>
          .error (.parsingError
            ("Invalid requirement line: " ++ String.mk (stripChars line.data)))
        | some req =>
          match parseReqLines filePath rest with
          | .error e => .error e
          | .ok deps => .ok (reqToDependency req filePath false :: deps) := rfl

theorem isEffectiveLine_eq_true {line : String}
    (h : ((stripChars line.data).isEmpty ||
      startsWithHash (stripChars line.data)) = false) :
    isEffectiveLine line = true := by
  unfold isEffectiveLine
  rw [h]
  rfl

theorem isEffectiveLine_eq_false {line : String}
    (h : ((stripChars line.data).isEmpty ||
      startsWithHash (stripChars line.data)) = true) :
    isEffectiveLine line = false := by
  unfold isEffectiveLine
  rw [h]
  rfl

theorem expectedReqDeps_cons_skip {filePath line : String} {rest : List String}
    (h : isEffectiveLine line = false) :
    expectedReqDeps filePath (line :: rest) = expectedReqDeps filePath rest := by
  unfold expectedReqDeps
  rw [List.filterMap_cons]
  simp [h]

theorem expectedReqDeps_cons_eff {filePath line : String} {rest : List String}
    {req : PyReq} (h : isEffectiveLine line = true) (hr : effReq line = some req) :
    expectedReqDeps filePath (line :: rest) =
      reqToDependency req filePath false :: expectedReqDeps filePath rest := by
  unfold expectedReqDeps
  rw [List.filterMap_cons]
  simp [h, hr]

theorem parseReqLines_ok_of_all_parse {filePath : String} :
    ∀ {lines : List String},
      (∀ line ∈ lines, isEffectiveLine line = true → (effReq line).isSome) →
      parseReqLines filePath lines = .ok (expectedReqDeps filePath lines)
  | [], _ => rfl
  | line :: rest, h => by
    have hrest := @parseReqLines_ok_of_all_parse filePath rest
      (fun l hl he => h l (List.mem_cons_of_mem _ hl) he)
    rcases Bool.eq_false_or_eq_true
        ((stripChars line.data).isEmpty || startsWithHash (stripChars line.data))
      with hskip | hskip
    · have heff := isEffectiveLine_eq_false hskip
      rw [parseReqLines_cons, if_pos hskip, hrest, expectedReqDeps_cons_skip heff]
    · have heff := isEffectiveLine_eq_true hskip
      have hsome := h line (List.mem_cons_self _ _) heff
      cases hreq : effReq line with
      | none => rw [hreq] at hsome; cases hsome
      | some req =>
        rw [parseReqLines_cons, if_neg (by rw [hskip]; simp)]
        have hreq' : parseRequirement (String.mk (stripChars line.data)) = some req := hreq
        rw [hreq', hrest, expectedReqDeps_cons_eff heff hreq]

theorem parseReqLines_error {filePath : String} :
    ∀ {lines : List String} {e : PyErr},
      parseReqLines filePath lines = .error e →
      (∃ msg, e = .parsingError msg) ∧
        ∃ line ∈ lines, isEffectiveLine line = true ∧ effReq line = none
  | [], _, h => by cases h
  | line :: rest, e, h => by
    rw [parseReqLines_cons] at h
    split at h
    · rename_i hskip
      rcases parseReqLines_error h with ⟨hmsg, l2, hl2, heff2, hnone2⟩
      exact ⟨hmsg, l2, List.mem_cons_of_mem _ hl2, heff2, hnone2⟩
    · rename_i hskip
      have hskip' : ((stripChars line.data).isEmpty ||
          startsWithHash (stripChars line.data)) = false := by
        cases hx : ((stripChars line.data).isEmpty ||
            startsWithHash (stripChars line.data)) with
        | false => rfl
        | true => exact absurd hx hskip
      have heff := isEffectiveLine_eq_true hskip'
      split at h
      · rename_i hreq
        injection h with h
        exact ⟨⟨_, h.symm⟩, line, List.mem_cons_self _ _, heff, hreq⟩
      · rename_i req hreq
        split at h
        · rename_i e2 hrec
          injection h with h
          subst h
          rcases parseReqLines_error hrec with ⟨hmsg, l2, hl2, heff2, hnone2⟩
          exact ⟨hmsg, l2, List.mem_cons_of_mem _ hl2, heff2, hnone2⟩
        · cases h

theorem parseReqLines_ok_all_parse {filePath : String} :
    ∀ {lines : List String} {deps : List Dependency},
      parseReqLines filePath lines = .ok deps →
      ∀ line ∈ lines, isEffectiveLine line = true → (effReq line).isSome
  | [], _, _ => by intro l hl; cases hl
  | line :: rest, deps, h => by
    rw [parseReqLines_cons] at h
    intro l hl heffl
    rcases Bool.eq_false_or_eq_true
        ((stripChars line.data).isEmpty || startsWithHash (stripChars line.data))
      with hskip | hskip
    · rw [if_pos hskip] at h
      rcases List.mem_cons.mp hl with heq | hl'
      · subst heq
        rw [isEffectiveLine_eq_false hskip] at heffl
        cases heffl
      · exact parseReqLines_ok_all_parse h l hl' heffl
    · rw [if_neg (by rw [hskip]; simp)] at h
      rcases List.mem_cons.mp hl with heq | hl'
      · subst heq
        cases hreq : effReq l with
        | none =>
          have hreq' : parseRequirement (String.mk (stripChars l.data)) = none := hreq
          rw [hreq'] at h
          cases h
        | some req => rfl
      · cases hreq : parseRequirement (String.mk (stripChars line.data)) with
        | none => rw [hreq] at h; cases h
        | some req =>
          rw [hreq] at h
          cases hrec : parseReqLines filePath rest with
          | error e2 => rw [hrec] at h; cases h
          | ok deps2 => exact parseReqLines_ok_all_parse hrec l hl' heffl

theorem expectedReqDeps_length {filePath : String} :
    ∀ {lines : List String},
      (∀ line ∈ lines, isEffectiveLine line = true → (effReq line).isSome) →
      (expectedReqDeps filePath lines).length = (lines.filter isEffectiveLine).length
  | [], _ => rfl
  | line :: rest, h => by
    have hrest := @expectedReqDeps_length filePath rest
      (fun l hl he => h l (List.mem_cons_of_mem _ hl) he)
    cases heff : isEffectiveLine line with
    | false =>
      rw [expectedReqDeps_cons_skip heff, List.filter_cons_of_neg (by simp [heff]),
        hrest]
    | true =>
      have hsome := h line (List.mem_cons_self _ _) heff
      cases hreq : effReq line with
      | none => rw [hreq] at hsome; cases hsome
      | some req =>
        rw [expectedReqDeps_cons_eff heff hreq,
          List.filter_cons_of_pos (by simp [heff])]
        simp [hrest]

theorem expectedReqDeps_mem {filePath : String} {lines : List String}
    {d : Dependency} (h : d ∈ expectedReqDeps filePath lines) :
    d.is_dev_dependency = false ∧ List.Pairwise sleRel d.extras := by
  unfold expectedReqDeps at h
  rcases List.mem_filterMap.mp h with ⟨line, _, hline⟩
  split at hline
  · rcases Option.map_eq_some'.mp hline with ⟨req, _, hd⟩
    rw [← hd]
    exact ⟨rfl, sortedExtras_pairwise _⟩
  · cases hline

/-- C9: for a readable plain-list file, parsing fails (with `ParsingError`)
iff some effective (non-blank, non-comment) line fails to parse as a
requirement — the whole parse aborts; and when every effective line parses,
the result has exactly one production dependency per effective line, in file
order, with extras sorted. -/
theorem C9_requirements_txt (filePath : String) (lines : List String) :
    ((∃ msg, parseRequirementsTxt filePath (some lines) =
        .error (.parsingError msg)) ↔
      ∃ line ∈ lines, isEffectiveLine line = true ∧ effReq line = none) ∧
    ((∀ line ∈ lines, isEffectiveLine line = true → (effReq line).isSome) →
      parseRequirementsTxt filePath (some lines) =
        .ok (expectedReqDeps filePath lines)) ∧
    (∀ deps, parseRequirementsTxt filePath (some lines) = .ok deps →
      deps.length = (lines.filter isEffectiveLine).length ∧
      ∀ d ∈ deps, d.is_dev_dependency = false ∧ List.Pairwise sleRel d.extras) := by
  have hdef : parseRequirementsTxt filePath (some lines) =
      parseReqLines filePath lines := rfl
  refine ⟨⟨?_, ?_⟩, ?_, ?_⟩
  · rintro ⟨msg, herr⟩
    rw [hdef] at herr
    exact (parseReqLines_error herr).2
  · rintro ⟨line, hl, heff, hnone⟩
    cases hres : parseReqLines filePath lines with
    | ok deps =>
      have := parseReqLines_ok_all_parse hres line hl heff
      rw [hnone] at this
      cases this
    | error e =>
      rcases parseReqLines_error hres with ⟨⟨msg, hmsg⟩, _⟩
      exact ⟨msg, by rw [hdef, hres, hmsg]⟩
  · intro h
    rw [hdef]
    exact parseReqLines_ok_of_all_parse h
  · intro deps hdeps
    rw [hdef] at hdeps
    have hall := parseReqLines_ok_all_parse hdeps
    have hok := @parseReqLines_ok_of_all_parse filePath lines hall
    rw [hdeps] at hok
    injection hok with hok
    subst hok
    exact ⟨expectedReqDeps_length hall, fun d hd => expectedReqDeps_mem hd⟩

/-- C9 (witness): a file with a comment, a blank line, one valid and the
parse of a malformed variant both behave as characterized. -/
theorem C9_witness :
    (parseRequirementsTxt "/p/requirements.txt"
        (some ["# comment", "", "requests[security,socks]>=2.0"]) =
      .ok (expectedReqDeps "/p/requirements.txt"
        ["# comment", "", "requests[security,socks]>=2.0"]) ∧
     ((∃ msg, parseRequirementsTxt "/p/requirements.txt"
          (some ["# comment", "", "requests[security,socks]>=2.0"]) =
        .error (.parsingError msg)) ↔
      ∃ line ∈ ["# comment", "", "requests[security,socks]>=2.0"],
        isEffectiveLine line = true ∧ effReq line = none)) ∧
    (∀ deps, parseRequirementsTxt "/p/requirements.txt"
        (some ["# comment", "", "requests[security,socks]>=2.0"]) = .ok deps →
      deps.length =
        ((["# comment", "", "requests[security,socks]>=2.0"] : List String).filter
          isEffectiveLine).length ∧
      ∀ d ∈ deps, d.is_dev_dependency = false ∧ List.Pairwise sleRel d.extras) :=
  ⟨⟨(C9_requirements_txt "/p/requirements.txt"
      ["# comment", "", "requests[security,socks]>=2.0"]).2.1 (by decide),
    (C9_requirements_txt "/p/requirements.txt"
      ["# comment", "", "requests[security,socks]>=2.0"]).1⟩,
    (C9_requirements_txt "/p/requirements.txt"
      ["# comment", "", "requests[security,socks]>=2.0"]).2.2⟩

/-! ## Project-analyzer error-handling lemmas (C3) -/

/-- Whether a per-file parse result is caught by
`except (FileSystemError, ParsingError)` in `analyze_project` (or is no
error at all). -/
def isCaughtOrOk : Except PyErr (List Dependency) → Bool
  | .ok _ => true
  | .error (.fileSystemError _) => true
  | .error (.parsingError _) => true
  | .error _ => false

/-- One file's contribution to the refresh: its parsed dependencies, or a
single sentinel error-dependency when the parse fails with a caught error. -/
def sentinelizedDeps (fc : String × FileContent) : List Dependency :=
  match parseDispatch fc with
  | .ok ds => ds
  | .error e =>
    [{ name := "__parse_error__", version_spec := errText e, source_file := fc.1 }]

def expectedRefreshDeps : List (String × FileContent) → List Dependency
  | [] => []
  | fc :: rest => sentinelizedDeps fc ++ expectedRefreshDeps rest

theorem refreshDeps_ok_of_caught :
    ∀ {found : List (String × FileContent)},
      (∀ fc ∈ found, isCaughtOrOk (parseDispatch fc) = true) →
      refreshDeps found = .ok (expectedRefreshDeps found)
  | [], _ => rfl
  | fc :: rest, h => by
    have hrest := refreshDeps_ok_of_caught
      (fun fc2 h2 => h fc2 (List.mem_cons_of_mem _ h2))
    have hhead := h fc (List.mem_cons_self _ _)
    unfold refreshDeps expectedRefreshDeps sentinelizedDeps
    cases hp : parseDispatch fc with
    | ok ds => rw [hrest]
    | error e =>
      cases e with
      | fileSystemError m => rw [hrest]; rfl
      | parsingError m => rw [hrest]; rfl
      | networkError m =>
        unfold isCaughtOrOk at hhead
        rw [hp] at hhead
        cases hhead
      | otherError m =>
        unfold isCaughtOrOk at hhead
        rw [hp] at hhead
        cases hhead

/-- C3 (counterexample): a `pyproject.toml` whose TOML parses but whose
dependency entry `"bad req =="` is an invalid requirement makes
`analyze_project` raise (`InvalidRequirement` is not among the caught
exception types): no sentinel dependency is produced. -/
theorem C3_counterexample :
    analyzeProject "/p"
        [("/p/pyproject.toml", .pyproject (some ⟨["bad req =="], []⟩))]
        (fun _ => 0) none =
      .error (.otherError "Invalid requirement: bad req ==") ∧
    isCaughtOrOk (parseDispatch
        ("/p/pyproject.toml", .pyproject (some ⟨["bad req =="], []⟩))) = false := by
  refine ⟨by decide, by decide⟩

/-- C3 (amended): whenever every found file either parses or fails with one
of the caught errors (`ParsingError`/`FileSystemError`), the analysis does
not raise, and the refresh replaces each failing file's contribution with
exactly one sentinel error-dependency (reserved name, error text as the
constraint field, offending file as source) while continuing with the
remaining files; an uncaught per-entry error (e.g. `InvalidRequirement`
inside a structurally valid `pyproject.toml`) instead propagates. -/
theorem C3_amended (key : String) (found : List (String × FileContent))
    (mtimeOf : String → Nat) (cached : Option CacheEntry)
    (h : ∀ fc ∈ found, isCaughtOrOk (parseDispatch fc) = true) :
    refreshDeps found = .ok (expectedRefreshDeps found) ∧
    ∃ info cacheAfter ranParsers,
      analyzeProject key found mtimeOf cached = .ok (info, cacheAfter, ranParsers) ∧
      (ranParsers = true → info.dependencies = expectedRefreshDeps found) := by
  have hr := refreshDeps_ok_of_caught h
  refine ⟨hr, ?_⟩
  unfold analyzeProject
  split
  · rw [hr]
    exact ⟨_, _, _, rfl, fun _ => rfl⟩
  · exact ⟨_, _, _, rfl, fun hcontra => by cases hcontra⟩

/-- C3 (witness): one malformed `requirements.txt` (caught → sentinel) next
to a healthy `setup.py`; the analysis succeeds. -/
theorem C3_witness :
    (∀ fc ∈ [("/p/requirements.txt", FileContent.reqsTxt (some ["bad line =="])),
        ("/p/setup.py", FileContent.setupPy (some ["requests"]))],
      isCaughtOrOk (parseDispatch fc) = true) ∧
    (refreshDeps [("/p/requirements.txt", FileContent.reqsTxt (some ["bad line =="])),
        ("/p/setup.py", FileContent.setupPy (some ["requests"]))] =
      .ok (expectedRefreshDeps
        [("/p/requirements.txt", FileContent.reqsTxt (some ["bad line =="])),
         ("/p/setup.py", FileContent.setupPy (some ["requests"]))]) ∧
     ∃ info cacheAfter ranParsers,
      analyzeProject "/p"
          [("/p/requirements.txt", FileContent.reqsTxt (some ["bad line =="])),
           ("/p/setup.py", FileContent.setupPy (some ["requests"]))]
          (fun _ => 0) none = .ok (info, cacheAfter, ranParsers) ∧
      (ranParsers = true → info.dependencies = expectedRefreshDeps
        [("/p/requirements.txt", FileContent.reqsTxt (some ["bad line =="])),
         ("/p/setup.py", FileContent.setupPy (some ["requests"]))])) :=
  ⟨by decide,
    C3_amended "/p"
      [("/p/requirements.txt", FileContent.reqsTxt (some ["bad line =="])),
       ("/p/setup.py", FileContent.setupPy (some ["requests"]))]
      (fun _ => 0) none (by decide)⟩

/-- C4: the cache entry is reused — no parser invoked, cached dependency
list returned, cache slot untouched — iff the found file list equals the
cached file list and every path in the union of current and cached paths
has an unchanged mtime; otherwise the refresh runs and replaces the cache
entry with the freshly parsed data. -/
theorem C4_cache_invalidation (key : String) (found : List (String × FileContent))
    (mtimeOf : String → Nat) (cached : Option CacheEntry) :
    (needsRefreshB (cached.getD {}) (found.map Prod.fst) mtimeOf = false ↔
      (found.map Prod.fst = (cached.getD {}).files ∧
        ∀ f ∈ found.map Prod.fst ++ (cached.getD {}).mtimes.map Prod.fst,
          lookupMtime (cached.getD {}).mtimes f =
            lookupMtime ((found.map Prod.fst).map fun g => (g, mtimeOf g)) f)) ∧
    (needsRefreshB (cached.getD {}) (found.map Prod.fst) mtimeOf = false →
      analyzeProject key found mtimeOf cached =
        .ok (⟨key, found.map Prod.fst, (cached.getD {}).dependencies⟩,
          cached, false)) ∧
    (needsRefreshB (cached.getD {}) (found.map Prod.fst) mtimeOf = true →
      ∀ info cacheAfter ranParsers,
        analyzeProject key found mtimeOf cached = .ok (info, cacheAfter, ranParsers) →
        ranParsers = true ∧
        refreshDeps found = .ok info.dependencies ∧
        cacheAfter = some ⟨(found.map Prod.fst).map fun f => (f, mtimeOf f),
          info.dependencies, found.map Prod.fst⟩) := by
  refine ⟨?_, ?_, ?_⟩
  · unfold needsRefreshB
    rw [Bool.or_eq_false_iff]
    constructor
    · rintro ⟨h1, h2⟩
      refine ⟨not_not.mp (of_decide_eq_false h1), ?_⟩
      intro f hf
      have hx := List.any_eq_false.mp h2 f hf
      simpa using hx
    · rintro ⟨h1, h2⟩
      refine ⟨decide_eq_false (not_not_intro h1), ?_⟩
      rw [List.any_eq_false]
      intro f hf
      have hx := h2 f hf
      simp [hx]
  · intro h
    unfold analyzeProject
    rw [h]
    cases cached <;> rfl
  · intro h info cacheAfter ranParsers heq
    unfold analyzeProject at heq
    rw [h] at heq
    cases hrd : refreshDeps found with
    | error e =>
      rw [hrd] at heq
      cases heq
    | ok deps =>
      rw [hrd] at heq
      have h3 := Except.ok.inj heq
      rw [Prod.mk.injEq, Prod.mk.injEq] at h3
      obtain ⟨hinfo, hcA, hrP⟩ := h3
      refine ⟨hrP.symm, ?_, ?_⟩
      · rw [← hinfo]
      · rw [← hcA, ← hinfo]

/-- C4 (witness): a cache hit — one found file with matching cached file
list and mtime — reuses the cached dependency list without running
parsers. -/
theorem C4_witness :
    needsRefreshB
      ((some ⟨[("/p/requirements.txt", 5)], [{ name := "cached-dep" }],
          ["/p/requirements.txt"]⟩ : Option CacheEntry).getD {})
      (([("/p/requirements.txt",
          FileContent.reqsTxt (some ["requests"]))].map Prod.fst))
      (fun _ => 5) = false ∧
    analyzeProject "/p"
        [("/p/requirements.txt", FileContent.reqsTxt (some ["requests"]))]
        (fun _ => 5)
        (some ⟨[("/p/requirements.txt", 5)], [{ name := "cached-dep" }],
          ["/p/requirements.txt"]⟩) =
      .ok (⟨"/p",
        [("/p/requirements.txt",
          FileContent.reqsTxt (some ["requests"]))].map Prod.fst,
        ((some ⟨[("/p/requirements.txt", 5)], [{ name := "cached-dep" }],
          ["/p/requirements.txt"]⟩ : Option CacheEntry).getD {}).dependencies⟩,
        some ⟨[("/p/requirements.txt", 5)], [{ name := "cached-dep" }],
          ["/p/requirements.txt"]⟩, false) :=
  ⟨by decide,
    (C4_cache_invalidation "/p"
      [("/p/requirements.txt", FileContent.reqsTxt (some ["requests"]))]
      (fun _ => 5)
      (some ⟨[("/p/requirements.txt", 5)], [{ name := "cached-dep" }],
        ["/p/requirements.txt"]⟩)).2.1 (by decide)⟩

end PyPiMcp
